import Mathlib

/-!
# MoKee `m1926` device HALs: touchscreen gestures and in-screen fingerprint

A shallow embedding of `touch/TouchscreenGesture.cpp` and
`fod/FingerprintInscreen.cpp`, followed by the theorems established about it.

Conventions.
* A `uint32_t` is a natural number below `2 ^ 32`; the operator `~` of C on
  32 bits is `not32`, and the bitwise operators are the ones of `Nat`.
* A file is what was handed to it: the control file is the list of buffers
  given to `fwrite`, in order.
* Whatever the environment decides (does `fopen` succeed, what does `read`
  return, is the signal delivered) is an explicit argument.
-/

namespace Touch

/-! ## `TouchscreenGesture.cpp`: constants -/

def SLIDE_LEFT_ENABLE : Nat := 1 <<< 0
def SLIDE_RIGHT_ENABLE : Nat := 1 <<< 1
def SLIDE_UP_ENABLE : Nat := 1 <<< 2
def SLIDE_DOWN_ENABLE : Nat := 1 <<< 3
def DOUBLE_TAP_ENABLE : Nat := 1 <<< 4
def ONECE_TAP_ENABLE : Nat := 1 <<< 5
def LONG_TAP_ENABLE : Nat := 1 <<< 6
def DRAW_E_ENABLE : Nat := 1 <<< 7
def DRAW_C_ENABLE : Nat := 1 <<< 8
def DRAW_W_ENABLE : Nat := 1 <<< 9
def DRAW_M_ENABLE : Nat := 1 <<< 10
def DRAW_O_ENABLE : Nat := 1 <<< 11
def DRAW_S_ENABLE : Nat := 1 <<< 12
def DRAW_V_ENABLE : Nat := 1 <<< 13
def DRAW_Z_ENABLE : Nat := 1 <<< 14
def FOD_ENABLE : Nat := 1 <<< 24

/-- The macro `ALL_GESTURE_ENABLE`, `(1 << 31)`, as the 32-bit pattern it has
once converted to `uint32_t`. -/
def ALL_GESTURE_ENABLE : Nat := 1 <<< 31

/-- Bitwise complement of a `uint32_t`. -/
def not32 (x : Nat) : Nat := x ^^^ 0xFFFFFFFF

/-- The struct `TouchscreenGesture::GestureInfo`. -/
structure GestureInfo where
  keycode : Int
  name : String
  value : Nat
deriving DecidableEq, Repr

/-- The HIDL struct `Gesture` that `setGestureEnabled` receives. -/
structure Gesture where
  id : Int
  name : String
  keycode : Int
deriving DecidableEq, Repr

/-- The static catalog `TouchscreenGesture::kGestureInfoMap`. -/
def kGestureInfoMap : List (Int × GestureInfo) :=
  [ (0, ⟨0x0280, "one_finger_left_swipe", SLIDE_LEFT_ENABLE⟩),
    (1, ⟨0x0281, "one_finger_right_swipe", SLIDE_RIGHT_ENABLE⟩),
    (2, ⟨0x0282, "one_finger_up_swipe", SLIDE_UP_ENABLE⟩),
    (3, ⟨0x0283, "one_finger_down_swipe", SLIDE_DOWN_ENABLE⟩),
    (4, ⟨0x0291, "letter_c", DRAW_C_ENABLE⟩),
    (5, ⟨0x0296, "letter_v", DRAW_V_ENABLE⟩) ]

/-! ## `TouchscreenGesture.cpp`: the aggregated mask -/

/-- The object `TouchscreenGesture` together with the control file it writes:
`mValue` is the member of that name, `control` the buffers handed to `fwrite`
on `GESTURE_CONTROL_PATH`, oldest first. -/
structure TouchscreenGesture where
  mValue : Nat
  control : List (List Nat)
deriving DecidableEq, Repr

/-- The mask once `setValue` has updated it: the any-enabled bit is cleared,
the bit of the feature is set or cleared, and the any-enabled bit is set again
when something is left. -/
def updateMask (mValue value : Nat) (enabled : Bool) : Nat :=
  let m1 := mValue &&& not32 ALL_GESTURE_ENABLE
  let m2 := if enabled then m1 ||| value else m1 &&& not32 value
  if m2 ≠ 0 then m2 ||| ALL_GESTURE_ENABLE else m2

/-- The four bytes `buf[0..3]` that `setValue` fills from the mask. -/
def maskBytes (mValue : Nat) : List Nat :=
  [ mValue &&& 0xFF,
    (mValue >>> 8) &&& 0xFF,
    (mValue >>> 16) &&& 0xFF,
    (mValue >>> 24) &&& 0xFF ]

/-- The method `TouchscreenGesture::setValue`. `openOk` says whether `fopen`
returned a stream. The result is the returned `bool` and the object afterwards. -/
def setValue (openOk : Bool) (value : Nat) (enabled : Bool)
    (s : TouchscreenGesture) : Bool × TouchscreenGesture :=
  if !openOk then
    (false, s)
  else
    let m := updateMask s.mValue value enabled
    (true, { mValue := m, control := s.control ++ [maskBytes m] })

/-- The method `TouchscreenGesture::setGestureEnabled`. -/
def setGestureEnabled (openOk : Bool) (gesture : Gesture) (enabled : Bool)
    (s : TouchscreenGesture) : Bool × TouchscreenGesture :=
  match kGestureInfoMap.lookup gesture.id with
  | none => (false, s)
  | some entry => setValue openOk entry.value enabled s

/-- The `void` method `TouchscreenGesture::setDoubleTapEnabled`. -/
def setDoubleTapEnabled (openOk : Bool) (enabled : Bool)
    (s : TouchscreenGesture) : TouchscreenGesture :=
  (setValue openOk DOUBLE_TAP_ENABLE enabled s).2

/-- A caller's request: one of the two public entry points. -/
inductive Call where
  | gesture (gesture : Gesture) (enabled : Bool)
  | doubleTap (enabled : Bool)
deriving DecidableEq, Repr

/-- One call, with the outcome of its `fopen`. -/
def Call.apply (openOk : Bool) (c : Call) (s : TouchscreenGesture) : TouchscreenGesture :=
  match c with
  | .gesture g enabled => (setGestureEnabled openOk g enabled s).2
  | .doubleTap enabled => setDoubleTapEnabled openOk enabled s

/-- A sequence of calls, each paired with the outcome of its `fopen`. -/
def runCalls (cs : List (Bool × Call)) (s : TouchscreenGesture) : TouchscreenGesture :=
  cs.foldl (fun acc c => c.2.apply c.1 acc) s

/-- The object with the zero mask and nothing written yet. -/
def zeroState : TouchscreenGesture := { mValue := 0, control := [] }

/-- The invariant of the mask: bit 31 is set iff the low 31 bits are not all
zero. -/
def MaskInv (m : Nat) : Prop := m.testBit 31 = true ↔ m % 2 ^ 31 ≠ 0

instance (m : Nat) : Decidable (MaskInv m) := by unfold MaskInv; infer_instance

/-- What a call addresses: the gesture with a given id, or double tap. -/
inductive Feature where
  | gesture (id : Int)
  | doubleTap
deriving DecidableEq, Repr

/-- The feature a call addresses. -/
def Call.feature : Call → Feature
  | .gesture g _ => .gesture g.id
  | .doubleTap _ => .doubleTap

/-- The `enabled` argument of a call. -/
def Call.enabled : Call → Bool
  | .gesture _ enabled => enabled
  | .doubleTap enabled => enabled

/-- The bit value that stands for a feature in the mask: the `value` of its
catalog entry (0 when the id has none), `DOUBLE_TAP_ENABLE` for double tap. -/
def Feature.value : Feature → Nat
  | .gesture id =>
    match kGestureInfoMap.lookup id with
    | some entry => entry.value
    | none => 0
  | .doubleTap => DOUBLE_TAP_ENABLE

/-- The seven features: the six gestures of the catalog, then double tap. -/
def features : List Feature :=
  kGestureInfoMap.map (fun entry => Feature.gesture entry.1) ++ [Feature.doubleTap]

/-- The most recent call of `cs` that addresses `f` exists and is an enable. -/
def lastEnabled (f : Feature) (cs : List Call) : Bool :=
  match (cs.filter (fun c => c.feature = f)).getLast? with
  | some c => c.enabled
  | none => false

/-- Bitwise OR of a list of words. -/
def orAll (l : List Nat) : Nat := l.foldr (fun x acc => x ||| acc) 0

/-- The mask after `setGestureEnabled(g, true)` followed by
`setGestureEnabled(g, false)`, both with a successful `fopen`. -/
def enableThenDisable (g : Gesture) (s : TouchscreenGesture) : TouchscreenGesture :=
  (setGestureEnabled true g false (setGestureEnabled true g true s).2).2

/-- The catalog has an entry for this id. -/
def inCatalog (id : Int) : Prop := id ∈ kGestureInfoMap.map Prod.fst

instance (id : Int) : Decidable (inCatalog id) := by unfold inCatalog; infer_instance

/-- The call addresses a feature the object knows: a gesture whose id is one of
the catalog ids `0..5`, or double tap. -/
def Call.Known : Call → Prop
  | .gesture g _ => 0 ≤ g.id ∧ g.id ≤ 5
  | .doubleTap _ => True

instance (c : Call) : Decidable c.Known := by
  cases c <;> unfold Call.Known <;> infer_instance

/-! ## `TouchscreenGesture.cpp`: the worker thread -/

/-- The signal number `SIGUSR1` of `signal.h`. -/
def SIGUSR1 : Int := 10

/-- The function `sighandler`: the new value of `destroyThread`. -/
def sighandler (sig : Int) (destroyThread : Bool) : Bool :=
  if sig = SIGUSR1 then true else destroyThread

/-- The C library's `isspace` in the C locale. -/
def isspace (c : Nat) : Bool := c = 0x20 || (0x09 ≤ c && c ≤ 0x0D)

/-- The C library's `isdigit`. -/
def isdigit (c : Nat) : Bool := 0x30 ≤ c && c ≤ 0x39

/-- The number a run of decimal digits denotes. -/
def digitsValue (ds : List Nat) : Nat := ds.foldl (fun acc d => 10 * acc + (d - 0x30)) 0

/-- Conversion of an integer to a 32-bit `int`, keeping the low 32 bits. -/
def toInt32 (n : Int) : Int := (n + 2 ^ 31) % 2 ^ 32 - 2 ^ 31

/-- The optional sign in front of the digits: whether it is a minus, and what
follows it. -/
def stripSign (body : List Nat) : Bool × List Nat :=
  match body with
  | c :: rest =>
    if c = 0x2D then (true, rest) else if c = 0x2B then (false, rest) else (false, body)
  | [] => (false, body)

/-- The C library call `sscanf(buf, "%d", &on)` on the bytes of `buf`: the
string ends at the first NUL (or with the array), white space is skipped, a sign
may follow, then at least one decimal digit is needed. The result is `some on`
when the call returns 1 and `none` when it returns anything else. A number out
of the range of `int` keeps its low 32 bits. -/
def sscanf_d (buf : List Nat) : Option Int :=
  let str := buf.takeWhile (fun c => c != 0)
  let signed := stripSign (str.dropWhile isspace)
  let ds := signed.2.takeWhile isdigit
  if ds.isEmpty then none
  else some (toInt32 (if signed.1 then - (digitsValue ds : Int) else (digitsValue ds : Int)))

/-- The scan of a chunk is decided inside the chunk: it holds a NUL, or after
its leading white space and an optional sign it holds a byte that is not a
decimal digit, such as the newline that ends a line. -/
def selfDelimited (chunk : List Nat) : Bool :=
  chunk.contains 0 || (stripSign (chunk.dropWhile isspace)).2.any (fun c => !isdigit c)

/-- What `read(fd, buf, sizeof(buf))` did: it failed, or it stored the bytes it
returns the count of (none at all when it returns 0). -/
inductive ReadResult where
  | error
  | data (bytes : List Nat)
deriving DecidableEq, Repr

/-- The array `buf` after a `read` that stored `chunk` at its start: the bytes
behind the chunk are the ones that were there before. -/
def storeChunk (chunk buf : List Nat) : List Nat := chunk ++ buf.drop chunk.length

/-- Where the thread running `work` stands. -/
inductive Pc where
  | mkfifo
  | openFifo
  | loopHead
  | readFifo
  | cleanup
  | done
deriving DecidableEq, Repr

/-- What the outside world decides for one step: the signal that is delivered,
if the step is the delivery of a signal, and otherwise what `mkfifo` or `open`
returns, what `read` does, and whether the `fopen` of `setValue` succeeds. -/
structure Env where
  signal : Option Int
  ret : Int
  read : ReadResult
  openOk : Bool
deriving DecidableEq, Repr

/-- The thread of `work`: its locals, the global `destroyThread`, the
descriptors it holds open, the number of `read` calls it has made on the pipe,
and the service object. -/
structure Worker where
  pc : Pc
  destroyThread : Bool
  fd : Int
  buf : List Nat
  openFds : List Int
  reads : Nat
  service : TouchscreenGesture
deriving DecidableEq, Repr

/-- The thread as `pthread_create` starts it, the constructor having cleared
`destroyThread`. The locals are not initialised: their values are arguments. -/
def Worker.init (fd : Int) (buf : List Nat) (service : TouchscreenGesture) : Worker :=
  { pc := .mkfifo, destroyThread := false, fd := fd, buf := buf, openFds := [], reads := 0,
    service := service }

/-- One pass through the body of the `while` loop of `work`, from the `read` to
the next test of the loop condition (or to the label `error`). -/
def loopBody (e : Env) (w : Worker) : Worker :=
  match e.read with
  | .error => { w with reads := w.reads + 1, pc := .cleanup }
  | .data bytes =>
    let chunk := bytes.take 10
    let buf := storeChunk chunk w.buf
    if chunk.length = 0 then
      { w with reads := w.reads + 1, pc := .loopHead }
    else
      match sscanf_d buf with
      | none => { w with buf := buf, reads := w.reads + 1, pc := .loopHead }
      | some onValue =>
        if onValue ≠ 0 then
          { w with buf := buf, reads := w.reads + 1,
                   service := setDoubleTapEnabled e.openOk true w.service, pc := .loopHead }
        else
          { w with buf := buf, reads := w.reads + 1,
                   service := setDoubleTapEnabled e.openOk false w.service, pc := .loopHead }

/-- One step of the thread itself: the statement of `work` it stands at, taken
with the results the outside world gives. -/
def advance (e : Env) (w : Worker) : Worker :=
  match w.pc with
  | .mkfifo =>
    if e.ret < 0 then { w with pc := .done } else { w with pc := .openFifo }
  | .openFifo =>
    if e.ret < 0 then
      { w with fd := e.ret, pc := .done }
    else
      { w with fd := e.ret, openFds := e.ret :: w.openFds, pc := .loopHead }
  | .loopHead =>
    if !w.destroyThread then { w with pc := .readFifo } else { w with pc := .cleanup }
  | .readFifo => loopBody e w
  | .cleanup => { w with openFds := w.openFds.erase w.fd, pc := .done }
  | .done => w

/-- One step of the whole: either a signal is delivered and its handler runs, or
the thread takes a step of its own. -/
def step (e : Env) (w : Worker) : Worker :=
  match e.signal with
  | some sig => { w with destroyThread := sighandler sig w.destroyThread }
  | none => advance e w

/-- The thread after a sequence of steps. -/
def run (es : List Env) (w : Worker) : Worker :=
  es.foldl (fun acc e => step e acc) w

/-- The number of steps of a sequence that are steps of the thread itself. -/
def ownSteps (es : List Env) : Nat := (es.filter (fun e => e.signal.isNone)).length

/-- The gesture poller up to its second `read`: the pipe is created and opened
as descriptor 3, and the first chunk read is the line "15\n", which enables
double tap. The array `buf` started out holding ten bytes `'9'`. -/
def afterFirstLine : Worker :=
  run [⟨none, 0, .error, true⟩, ⟨none, 3, .error, true⟩, ⟨none, 0, .error, true⟩,
       ⟨none, 0, .data [0x31, 0x35, 0x0A], true⟩, ⟨none, 0, .error, true⟩]
    (Worker.init 0 (List.replicate 10 0x39) zeroState)

/-- A step of the gesture poller in which `read` delivers the line "0\n" and the
`fopen` of the control file is as given. -/
def lineZero (openOk : Bool) : Env :=
  { signal := none, ret := 0, read := .data [0x30, 0x0A], openOk := openOk }

/-- A step of the gesture poller in which `read` delivers the line "1\n" and the
`fopen` of the control file succeeds. -/
def lineOne : Env := { signal := none, ret := 0, read := .data [0x31, 0x0A], openOk := true }

/-- A run of the gesture poller up to the moment its flag is set: the pipe is
created, it is opened as descriptor 3, the test of the `while` lets the thread
in, and then the signal is delivered. -/
def flagRaised : List Env :=
  [⟨none, 0, .error, true⟩, ⟨none, 3, .error, true⟩, ⟨none, 0, .error, true⟩,
   ⟨some SIGUSR1, 0, .error, true⟩]

/-- Four more steps of the gesture poller. -/
def fourMore : List Env := List.replicate 4 lineOne

/-! ## Auxiliary definitions for the proofs -/

/-- The low 31 bits that `updateMask` computes before it restores bit 31. -/
def lowBits (m v : Nat) (enabled : Bool) : Nat :=
  if enabled then m % 2 ^ 31 ||| v else m % 2 ^ 31 &&& not32 v

/-- The low bits that stand for a choice of enabled features. -/
def encode (b : Feature → Bool) : Nat := orAll ((features.filter b).map Feature.value)

/-- The same, from the seven choices one by one. -/
def enc (x0 x1 x2 x3 x4 x5 x6 : Bool) : Nat :=
  (if x0 then 1 else 0) ||| ((if x1 then 2 else 0) ||| ((if x2 then 4 else 0)
    ||| ((if x3 then 8 else 0) ||| ((if x4 then 256 else 0) ||| ((if x5 then 8192 else 0)
    ||| ((if x6 then 16 else 0) ||| 0))))))

/-- What holds of the thread wherever it stands: the descriptors it holds open. -/
def Inv (w : Worker) : Prop :=
  match w.pc with
  | .mkfifo => w.openFds = []
  | .openFifo => w.openFds = []
  | .done => w.openFds = []
  | _ => w.openFds = [w.fd]

/-- An upper bound on the steps left before `work` returns, once the flag is set. -/
def stepsLeft (w : Worker) : Nat :=
  match w.pc with
  | .mkfifo => 4
  | .openFifo => 3
  | .loopHead => 2
  | .readFifo => 3
  | .cleanup => 1
  | .done => 0

/-- An upper bound on the reads left, once the flag is set. -/
def readsLeft (w : Worker) : Nat :=
  match w.pc with
  | .readFifo => 1
  | _ => 0

end Touch

namespace Fod

/-! ## `FingerprintInscreen.cpp`: the listener and the key events -/

def EPOLLEVENTS : Int := 20

def KEY_FOD : Nat := 0x0272

/-- The event type `EV_KEY` of `linux/input.h`. -/
def EV_KEY : Nat := 0x01

/-- The signal number `SIGUSR1` of `signal.h`. -/
def SIGUSR1 : Int := 10

/-- The error number `EINTR` of `errno.h`. -/
def EINTR : Int := 4

/-- The fields of `struct input_event` that the poller looks at. -/
structure input_event where
  type : Nat
  code : Nat
  value : Int
deriving DecidableEq, Repr

/-- The two methods of `IFingerprintInscreenCallback` the service calls. -/
inductive Notification where
  | onFingerDown
  | onFingerUp
deriving DecidableEq, Repr

/-- The object `FingerprintInscreen` as the poller sees it: `mCallback` is the
registered listener (by identity) or `nullptr`; `delivered` lists the calls made
on listeners so far, oldest first. -/
structure FingerprintInscreen where
  mCallback : Option Nat
  delivered : List (Nat × Notification)
deriving DecidableEq, Repr

/-- The method `FingerprintInscreen::setCallback`. -/
def setCallback (callback : Option Nat) (s : FingerprintInscreen) : FingerprintInscreen :=
  { s with mCallback := callback }

/-- The method `FingerprintInscreen::notifyKeyEvent`. A failed transaction is
only logged, so the call on the listener is all that is recorded. -/
def notifyKeyEvent (value : Int) (s : FingerprintInscreen) : FingerprintInscreen :=
  match s.mCallback with
  | none => s
  | some callback =>
    if value ≠ 0 then
      { s with delivered := s.delivered ++ [(callback, Notification.onFingerDown)] }
    else
      { s with delivered := s.delivered ++ [(callback, Notification.onFingerUp)] }

/-- The buffer `key_event` after `read` returned `ret`: the record the device
delivered when something was read, the old contents otherwise. -/
def readEvent (ret : Int) (record key_event : input_event) : input_event :=
  if 0 < ret then record else key_event

/-- The test and the call that follow the `read` in the `for` loop of `work`:
`ret` is what `read` returned, `key_event` the buffer after it. -/
def dispatch (ret : Int) (key_event : input_event) (s : FingerprintInscreen) :
    FingerprintInscreen :=
  if ret ≠ 0 ∧ key_event.type = EV_KEY ∧ key_event.code = KEY_FOD then
    notifyKeyEvent key_event.value s
  else
    s

/-- The function `sighandler`: the new value of `destroyThread`. -/
def sighandler (sig : Int) (destroyThread : Bool) : Bool :=
  if sig = SIGUSR1 then true else destroyThread

/-! ## `FingerprintInscreen.cpp`: the worker thread -/

/-- Where the thread running `work` stands: before one of its system calls, at
the test of the `while`, in the `for` loop with its counter, at the label
`error`, or returned. -/
inductive Pc where
  | openDev
  | epollCreate
  | epollCtl
  | loopHead
  | epollWait
  | forEach (i : Int)
  | cleanup
  | done
deriving DecidableEq, Repr

/-- What the outside world decides for one step: the signal that is delivered,
if the step is the delivery of a signal, and otherwise the results of the system
call the thread makes. -/
structure Env where
  signal : Option Int
  fd : Int
  ctl : Int
  nevents : Int
  errno : Int
  ret : Int
  record : input_event
deriving DecidableEq, Repr

/-- An `epoll_wait` that was given room for `EPOLLEVENTS` events reports no more
than that many. -/
def Env.Ok (e : Env) : Prop := e.nevents ≤ EPOLLEVENTS

instance (e : Env) : Decidable e.Ok := by unfold Env.Ok; infer_instance

/-- The thread of `work`: its locals, the global `destroyThread`, the
descriptors it holds open, the number of `read` calls it has made on the input
device, and the service object. -/
structure Worker where
  pc : Pc
  destroyThread : Bool
  input_fd : Int
  epoll_fd : Int
  nevents : Int
  key_event : input_event
  openFds : List Int
  reads : Nat
  service : FingerprintInscreen
deriving DecidableEq, Repr

/-- The thread as `pthread_create` starts it, the constructor having cleared
`destroyThread`. The locals are not initialised: their values are arguments. -/
def Worker.init (input_fd epoll_fd : Int) (key_event : input_event)
    (service : FingerprintInscreen) : Worker :=
  { pc := .openDev, destroyThread := false, input_fd := input_fd, epoll_fd := epoll_fd,
    nevents := 0, key_event := key_event, openFds := [], reads := 0, service := service }

/-- One step of the thread itself: the statement of `work` it stands at, taken
with the results the outside world gives. -/
def advance (e : Env) (w : Worker) : Worker :=
  match w.pc with
  | .openDev =>
    if e.fd < 0 then
      { w with input_fd := e.fd, pc := .done }
    else
      { w with input_fd := e.fd, openFds := e.fd :: w.openFds, pc := .epollCreate }
  | .epollCreate =>
    let opened := if 0 ≤ e.fd then e.fd :: w.openFds else w.openFds
    if e.fd = -1 then
      { w with epoll_fd := e.fd, openFds := opened, pc := .cleanup }
    else
      { w with epoll_fd := e.fd, openFds := opened, pc := .epollCtl }
  | .epollCtl =>
    if e.ctl = -1 then { w with pc := .cleanup } else { w with pc := .loopHead }
  | .loopHead =>
    if !w.destroyThread then { w with pc := .epollWait } else { w with pc := .cleanup }
  | .epollWait =>
    if e.nevents = -1 then
      if e.errno = EINTR then
        { w with nevents := e.nevents, pc := .loopHead }
      else
        { w with nevents := e.nevents, pc := .cleanup }
    else
      { w with nevents := e.nevents, pc := .forEach 0 }
  | .forEach i =>
    if i < w.nevents then
      let key_event := readEvent e.ret e.record w.key_event
      { w with key_event := key_event, reads := w.reads + 1,
               service := dispatch e.ret key_event w.service, pc := .forEach (i + 1) }
    else
      { w with pc := .loopHead }
  | .cleanup =>
    let closed := w.openFds.erase w.input_fd
    if 0 ≤ w.epoll_fd then
      { w with openFds := closed.erase w.epoll_fd, pc := .done }
    else
      { w with openFds := closed, pc := .done }
  | .done => w

/-- One step of the whole: either a signal is delivered and its handler runs, or
the thread takes a step of its own. -/
def step (e : Env) (w : Worker) : Worker :=
  match e.signal with
  | some sig => { w with destroyThread := sighandler sig w.destroyThread }
  | none => advance e w

/-- The thread after a sequence of steps. -/
def run (es : List Env) (w : Worker) : Worker :=
  es.foldl (fun acc e => step e acc) w

/-- The number of steps of a sequence that are steps of the thread itself. -/
def ownSteps (es : List Env) : Nat := (es.filter (fun e => e.signal.isNone)).length

/-! ## `FingerprintInscreen.cpp`: the dim amount -/

/-- The template `get<int>(path, def)`: `file` is the integer that the stream
extracts from the file, `none` when the file is missing, unreadable or does not
start with an integer. -/
def get (file : Option Int) (fallback : Int) : Int :=
  match file with
  | some result => result
  | none => fallback

/-- The floating-point operations `getDimAmount` goes through, as functions on
the reals: rounding a real to a `float`, rounding a real to a `double`, and the
library call `pow(x, 0.455)` on a `double`. -/
structure FloatOps where
  toFloat : ℝ → ℝ
  toDouble : ℝ → ℝ
  pow455 : ℝ → ℝ

/-- What is assumed of the floating-point operations, all of it true of IEEE 754
arithmetic with a C library kept to Annex F: integers of up to 24 bits are exact
as `float` and of up to 53 bits as `double`, rounding moves a value between 1/8
and 256 by no more than `2 ^ -20` of itself, `pow(0, y)` is 0 and `pow(1, y)` is
1 for `y > 0`, and between 1/8 and 1 `pow(x, 0.455)` is within `2 ^ -20` of the
real power. -/
structure FloatOps.Accurate (F : FloatOps) : Prop where
  float_int : ∀ n : ℤ, |n| ≤ 2 ^ 24 → F.toFloat (n : ℝ) = (n : ℝ)
  double_int : ∀ n : ℤ, |n| ≤ 2 ^ 53 → F.toDouble (n : ℝ) = (n : ℝ)
  float_near : ∀ x : ℝ, 1 / 8 ≤ x → x ≤ 256 → |F.toFloat x - x| ≤ x / 2 ^ 20
  double_near : ∀ x : ℝ, 1 / 8 ≤ x → x ≤ 256 → |F.toDouble x - x| ≤ x / 2 ^ 20
  pow_zero : F.pow455 0 = 0
  pow_one : F.pow455 1 = 1
  pow_near : ∀ x : ℝ, 1 / 8 ≤ x → x ≤ 1 →
    |F.pow455 x - x ^ (0.455 : ℝ)| ≤ x ^ (0.455 : ℝ) / 2 ^ 20

/-- Arithmetic without rounding. -/
noncomputable def exactOps : FloatOps :=
  { toFloat := fun x => x, toDouble := fun x => x, pow455 := fun x => x ^ (0.455 : ℝ) }

/-- Conversion of a `float` to `int32_t`: the fraction is dropped. -/
noncomputable def truncate (x : ℝ) : Int := if 0 ≤ x then ⌊x⌋ else ⌈x⌉

/-- The method `FingerprintInscreen::getDimAmount`. `brightnessFile` is what the
brightness file holds. The division is a `float` division, `pow` and the
subtraction are done in `double`, `alpha` is a `float`, the product is a `float`
product, and the result is converted to `int32_t`. -/
noncomputable def getDimAmount (F : FloatOps) (brightnessFile : Option Int) : Int :=
  let brightness : Int := get brightnessFile 0
  let alpha : ℝ :=
    F.toFloat (F.toDouble (1 - F.pow455 (F.toFloat (F.toFloat (brightness : ℝ) / 255))))
  truncate (F.toFloat (255 * alpha))

/-- The fingerprint poller in its `for` loop with one ready descriptor, a
listener 7 being registered. -/
def readyWorker : Worker :=
  { pc := .forEach 0, destroyThread := false, input_fd := 3, epoll_fd := 4, nevents := 1,
    key_event := ⟨0, 0, 0⟩, openFds := [4, 3], reads := 0, service := ⟨some 7, []⟩ }

/-- A step of the fingerprint poller in which `epoll_wait` reports one ready
descriptor and `read` delivers a whole record: the key `KEY_FOD` goes down. -/
def fingerDown : Env :=
  { signal := none, fd := 0, ctl := 0, nevents := 1, errno := 0, ret := 24,
    record := ⟨EV_KEY, KEY_FOD, 1⟩ }

/-- A run of the fingerprint poller up to the moment its flag is set: the device
is opened as descriptor 3, the multiplexer is created as descriptor 4, the
device is registered, the test of the `while` lets the thread in, and then the
signal is delivered. -/
def flagRaised : List Env :=
  [⟨none, 3, 0, 0, 0, 0, ⟨0, 0, 0⟩⟩, ⟨none, 4, 0, 0, 0, 0, ⟨0, 0, 0⟩⟩,
   ⟨none, 0, 0, 0, 0, 0, ⟨0, 0, 0⟩⟩, ⟨none, 0, 0, 0, 0, 0, ⟨0, 0, 0⟩⟩,
   ⟨some SIGUSR1, 0, 0, 0, 0, 0, ⟨0, 0, 0⟩⟩]

/-- Twenty-four more steps of the fingerprint poller. -/
def manyMore : List Env := List.replicate 24 fingerDown

/-! ## Auxiliary definitions for the proofs -/

/-- What holds of the thread wherever it stands: the descriptors it holds open,
and the bounds of the `for` loop. -/
def Inv (w : Worker) : Prop :=
  match w.pc with
  | .openDev => w.openFds = []
  | .epollCreate => w.openFds = [w.input_fd]
  | .forEach i =>
    w.openFds = (if 0 ≤ w.epoll_fd then [w.epoll_fd, w.input_fd] else [w.input_fd])
      ∧ 0 ≤ i ∧ w.nevents ≤ EPOLLEVENTS
  | .done => w.openFds = []
  | _ => w.openFds = (if 0 ≤ w.epoll_fd then [w.epoll_fd, w.input_fd] else [w.input_fd])

/-- An upper bound on the steps left before `work` returns, once the flag is set. -/
def stepsLeft (w : Worker) : Nat :=
  match w.pc with
  | .openDev => 5
  | .epollCreate => 4
  | .epollCtl => 3
  | .loopHead => 2
  | .epollWait => 24
  | .forEach i => (w.nevents - i).toNat + 3
  | .cleanup => 1
  | .done => 0

/-- An upper bound on the reads left, once the flag is set. -/
def readsLeft (w : Worker) : Nat :=
  match w.pc with
  | .epollWait => 20
  | .forEach i => (w.nevents - i).toNat
  | _ => 0

end Fod

/-! # Theorems -/

namespace Touch

theorem not32_all : not32 ALL_GESTURE_ENABLE = 2 ^ 31 - 1 := by decide

theorem all_eq : ALL_GESTURE_ENABLE = 2 ^ 31 := by decide

theorem updateMask_eq (m v : Nat) (en : Bool) :
    updateMask m v en
      = if lowBits m v en ≠ 0 then lowBits m v en ||| 2 ^ 31 else lowBits m v en := by
  unfold updateMask lowBits
  rw [not32_all, Nat.and_pow_two_sub_one_eq_mod, all_eq]

theorem lowBits_lt {v : Nat} (hv : v < 2 ^ 31) (m : Nat) (en : Bool) :
    lowBits m v en < 2 ^ 31 := by
  have hm : m % 2 ^ 31 < 2 ^ 31 := Nat.mod_lt _ (by norm_num)
  unfold lowBits
  cases en
  · exact lt_of_le_of_lt Nat.and_le_left hm
  · exact Nat.or_lt_two_pow hm hv

theorem or_top_mod {x : Nat} (hx : x < 2 ^ 31) : (x ||| 2 ^ 31) % 2 ^ 31 = x := by
  apply Nat.eq_of_testBit_eq
  intro i
  rw [Nat.testBit_mod_two_pow, Nat.testBit_or, Nat.testBit_two_pow]
  by_cases hi : i < 31
  · have : ¬ (31 = i) := by omega
    simp [hi, this]
  · have hxi : x.testBit i = false :=
      Nat.testBit_lt_two_pow (lt_of_lt_of_le hx (Nat.pow_le_pow_right (by norm_num) (by omega)))
    simp [hi, hxi]

theorem or_top_testBit (x : Nat) : (x ||| 2 ^ 31).testBit 31 = true := by
  rw [Nat.testBit_or, Nat.testBit_two_pow]; simp

theorem or_top_lt {x : Nat} (hx : x < 2 ^ 31) : x ||| 2 ^ 31 < 2 ^ 32 :=
  Nat.or_lt_two_pow (lt_trans hx (by norm_num)) (by norm_num)

theorem updateMask_mod {v : Nat} (hv : v < 2 ^ 31) (m : Nat) (en : Bool) :
    updateMask m v en % 2 ^ 31 = lowBits m v en := by
  have hlt := lowBits_lt hv m en
  rw [updateMask_eq]
  split
  · exact or_top_mod hlt
  · exact Nat.mod_eq_of_lt hlt

theorem updateMask_testBit {v : Nat} (hv : v < 2 ^ 31) (m : Nat) (en : Bool) :
    (updateMask m v en).testBit 31 = decide (lowBits m v en ≠ 0) := by
  have hlt := lowBits_lt hv m en
  rw [updateMask_eq]
  split
  · rename_i h; rw [or_top_testBit]; simp [h]
  · rename_i h; rw [Nat.testBit_lt_two_pow hlt]; simp [h]

theorem updateMask_lt {v : Nat} (hv : v < 2 ^ 31) (m : Nat) (en : Bool) :
    updateMask m v en < 2 ^ 32 := by
  have hlt := lowBits_lt hv m en
  rw [updateMask_eq]
  split
  · exact or_top_lt hlt
  · exact lt_trans hlt (by norm_num)

theorem updateMask_inv {v : Nat} (hv : v < 2 ^ 31) (m : Nat) (en : Bool) :
    MaskInv (updateMask m v en) := by
  unfold MaskInv
  rw [updateMask_mod hv, updateMask_testBit hv]
  simp

theorem inCatalog_iff (id : Int) : inCatalog id ↔ 0 ≤ id ∧ id ≤ 5 := by
  simp only [inCatalog, kGestureInfoMap, List.map, List.mem_cons, List.mem_nil_iff, or_false]
  omega

theorem lookup_known {id : Int} (h0 : 0 ≤ id) (h5 : id ≤ 5) :
    ∃ e, kGestureInfoMap.lookup id = some e ∧ e.value ∈ [1, 2, 4, 8, 256, 8192] := by
  have h : id = 0 ∨ id = 1 ∨ id = 2 ∨ id = 3 ∨ id = 4 ∨ id = 5 := by omega
  rcases h with h | h | h | h | h | h <;> subst h <;> exact ⟨_, rfl, by decide⟩

theorem lookup_unknown {id : Int} (h : id < 0 ∨ 5 < id) : kGestureInfoMap.lookup id = none := by
  have h0 : (id == 0) = false := beq_eq_false_iff_ne.mpr (by omega)
  have h1 : (id == 1) = false := beq_eq_false_iff_ne.mpr (by omega)
  have h2 : (id == 2) = false := beq_eq_false_iff_ne.mpr (by omega)
  have h3 : (id == 3) = false := beq_eq_false_iff_ne.mpr (by omega)
  have h4 : (id == 4) = false := beq_eq_false_iff_ne.mpr (by omega)
  have h5 : (id == 5) = false := beq_eq_false_iff_ne.mpr (by omega)
  simp only [kGestureInfoMap, List.lookup, h0, h1, h2, h3, h4, h5]

theorem value_lt_of_mem {v : Nat} (h : v ∈ [1, 2, 4, 8, 256, 8192]) : v < 2 ^ 31 := by
  simp only [List.mem_cons, List.mem_nil_iff, or_false] at h
  rcases h with h | h | h | h | h | h <;> subst h <;> norm_num

theorem doubleTap_lt : DOUBLE_TAP_ENABLE < 2 ^ 31 := by decide

theorem setValue_ok (v : Nat) (en : Bool) (s : TouchscreenGesture) :
    setValue true v en s
      = (true, { mValue := updateMask s.mValue v en,
                 control := s.control ++ [maskBytes (updateMask s.mValue v en)] }) := rfl

theorem setValue_fail (v : Nat) (en : Bool) (s : TouchscreenGesture) :
    setValue false v en s = (false, s) := rfl

/-- Any call keeps the invariant of the mask, whatever `fopen` did. -/
theorem apply_inv (openOk : Bool) (c : Call) (s : TouchscreenGesture)
    (hs : MaskInv s.mValue) : MaskInv (c.apply openOk s).mValue := by
  cases openOk
  · cases c with
    | gesture g en =>
      simp only [Call.apply, setGestureEnabled]
      split <;> simp [setValue_fail, hs]
    | doubleTap en => simpa [Call.apply, setDoubleTapEnabled, setValue_fail] using hs
  · cases c with
    | gesture g en =>
      simp only [Call.apply, setGestureEnabled]
      split
      · exact hs
      · rename_i e he
        have hk : 0 ≤ g.id ∧ g.id ≤ 5 := by
          by_contra hn
          rw [lookup_unknown (by omega)] at he
          cases he
        obtain ⟨e', he', hv⟩ := lookup_known hk.1 hk.2
        rw [he] at he'
        cases he'
        rw [setValue_ok]
        exact updateMask_inv (value_lt_of_mem hv) _ _
    | doubleTap en =>
      simp only [Call.apply, setDoubleTapEnabled, setValue_ok]
      exact updateMask_inv doubleTap_lt _ _

theorem runCalls_inv (cs : List (Bool × Call)) (s : TouchscreenGesture)
    (hs : MaskInv s.mValue) : MaskInv (runCalls cs s).mValue := by
  induction cs generalizing s with
  | nil => exact hs
  | cons c cs ih => exact ih _ (apply_inv c.1 c.2 s hs)

theorem known_apply (c : Call) (hc : c.Known) (s : TouchscreenGesture) :
    ∃ v, v < 2 ^ 31 ∧ c.apply true s
      = { mValue := updateMask s.mValue v c.enabled,
          control := s.control ++ [maskBytes (updateMask s.mValue v c.enabled)] } := by
  cases c with
  | gesture g en =>
    obtain ⟨e, he, hv⟩ := lookup_known hc.1 hc.2
    exact ⟨e.value, value_lt_of_mem hv,
      by simp [Call.apply, setGestureEnabled, he, setValue_ok, Call.enabled]⟩
  | doubleTap en =>
    exact ⟨DOUBLE_TAP_ENABLE, doubleTap_lt,
      by simp [Call.apply, setDoubleTapEnabled, setValue_ok, Call.enabled]⟩

/-- C1. Whatever the mask was, a successful `setGestureEnabled` on a catalog id
(0..5) or a successful `setDoubleTapEnabled`, enabling or disabling, leaves a
mask whose bit 31 is set iff its low 31 bits are not all zero; and starting from
the zero mask the same holds after every call of every sequence of calls. -/
theorem mask_invariant_after_every_call (s : TouchscreenGesture) (c : Call) (hc : c.Known) :
    MaskInv (c.apply true s).mValue
    ∧ ∀ (cs : List (Bool × Call)) (k : Nat),
        MaskInv (runCalls (cs.take k) zeroState).mValue := by
  constructor
  · obtain ⟨v, hv, h⟩ := known_apply c hc s
    rw [h]
    exact updateMask_inv hv _ _
  · intro cs k
    exact runCalls_inv _ _ (by decide)

theorem mask_invariant_after_every_call_witness :
    (Call.gesture ⟨4, "letter_c", 0x0291⟩ false).Known
    ∧ MaskInv ((Call.gesture ⟨4, "letter_c", 0x0291⟩ false).apply true
        { mValue := 0xFFFFFFFF, control := [] }).mValue
    ∧ ∀ (cs : List (Bool × Call)) (k : Nat),
        MaskInv (runCalls (cs.take k) zeroState).mValue :=
  ⟨by decide, mask_invariant_after_every_call _ _ (by decide)⟩

theorem testBit_ones32 (i : Nat) : (0xFFFFFFFF : Nat).testBit i = decide (i < 32) := by
  have : (0xFFFFFFFF : Nat) = 2 ^ 32 - 1 := by norm_num
  rw [this, Nat.testBit_two_pow_sub_one]

theorem testBit_not32 (v i : Nat) : (not32 v).testBit i = (v.testBit i ^^ decide (i < 32)) := by
  unfold not32
  rw [Nat.testBit_xor, testBit_ones32]

theorem testBit_high {x n i : Nat} (hx : x < 2 ^ n) (hi : n ≤ i) : x.testBit i = false :=
  Nat.testBit_lt_two_pow (lt_of_lt_of_le hx (Nat.pow_le_pow_right (by norm_num) hi))

/-- Setting a bit and then clearing it is the same as clearing it. -/
theorem or_and_not32 (a : Nat) {v : Nat} (hv : v < 2 ^ 32) :
    (a ||| v) &&& not32 v = a &&& not32 v := by
  apply Nat.eq_of_testBit_eq
  intro i
  simp only [Nat.testBit_and, Nat.testBit_or, testBit_not32]
  by_cases hi : i < 32
  · cases a.testBit i <;> cases v.testBit i <;> simp [hi]
  · rw [testBit_high hv (by omega)]
    simp

/-- Clearing a bit changes nothing exactly when the bit was clear. -/
theorem and_not32_eq_self_iff {a : Nat} (ha : a < 2 ^ 32) (v : Nat) :
    a &&& not32 v = a ↔ a &&& v = 0 := by
  constructor
  · intro h
    apply Nat.eq_of_testBit_eq
    intro i
    have hi := congrArg (fun x => x.testBit i) h
    simp only [Nat.testBit_and, testBit_not32] at hi
    rw [Nat.testBit_and, Nat.zero_testBit]
    by_cases h32 : i < 32
    · revert hi
      cases a.testBit i <;> cases v.testBit i <;> simp [h32]
    · rw [testBit_high ha (by omega)]
      simp
  · intro h
    apply Nat.eq_of_testBit_eq
    intro i
    have hi := congrArg (fun x => x.testBit i) h
    simp only [Nat.testBit_and, Nat.zero_testBit] at hi
    rw [Nat.testBit_and, testBit_not32]
    by_cases h32 : i < 32
    · revert hi
      cases a.testBit i <;> cases v.testBit i <;> simp [h32]
    · rw [testBit_high ha (by omega)]
      simp

theorem mod_and_eq {v : Nat} (hv : v < 2 ^ 31) (m : Nat) : m % 2 ^ 31 &&& v = m &&& v := by
  apply Nat.eq_of_testBit_eq
  intro i
  rw [Nat.testBit_and, Nat.testBit_and, Nat.testBit_mod_two_pow]
  by_cases hi : i < 31
  · simp [hi]
  · rw [testBit_high hv (by omega)]
    simp

/-- A 32-bit word is determined by its low 31 bits and bit 31. -/
theorem eq_of_low_of_top {x y : Nat} (hx : x < 2 ^ 32) (hy : y < 2 ^ 32)
    (hlow : x % 2 ^ 31 = y % 2 ^ 31) (htop : x.testBit 31 = y.testBit 31) : x = y := by
  apply Nat.eq_of_testBit_eq
  intro i
  rcases Nat.lt_trichotomy i 31 with hi | hi | hi
  · have h := congrArg (fun z => z.testBit i) hlow
    simp only [Nat.testBit_mod_two_pow] at h
    simpa [hi] using h
  · subst hi; exact htop
  · rw [testBit_high hx (by omega), testBit_high hy (by omega)]

/-- C2. For a gesture id that is not a key of the catalog (any id other than
0..5), whatever the mask, the enabled value and the outcome an `fopen` would
have, `setGestureEnabled` returns false, leaves the mask as it was and writes
nothing to the control file. -/
theorem setGestureEnabled_unknown_id (openOk : Bool) (g : Gesture) (enabled : Bool)
    (s : TouchscreenGesture) (h : ¬ inCatalog g.id ∨ g.id < 0 ∨ 5 < g.id) :
    (setGestureEnabled openOk g enabled s).1 = false
    ∧ (setGestureEnabled openOk g enabled s).2.mValue = s.mValue
    ∧ (setGestureEnabled openOk g enabled s).2.control = s.control := by
  have h' : g.id < 0 ∨ 5 < g.id := by
    rcases h with h | h
    · rw [inCatalog_iff] at h; omega
    · exact h
  simp [setGestureEnabled, lookup_unknown h']

theorem setGestureEnabled_unknown_id_witness :
    (¬ inCatalog (6 : Int) ∨ (6 : Int) < 0 ∨ (5 : Int) < 6)
    ∧ (setGestureEnabled true ⟨6, "letter_w", 0x0297⟩ true ⟨0x80000005, [[5, 0, 0, 0x80]]⟩).1 = false
    ∧ (setGestureEnabled true ⟨6, "letter_w", 0x0297⟩ true ⟨0x80000005, [[5, 0, 0, 0x80]]⟩).2.mValue
        = 0x80000005
    ∧ (setGestureEnabled true ⟨6, "letter_w", 0x0297⟩ true ⟨0x80000005, [[5, 0, 0, 0x80]]⟩).2.control
        = [[5, 0, 0, 0x80]] :=
  ⟨by decide, setGestureEnabled_unknown_id true ⟨6, "letter_w", 0x0297⟩ true
    ⟨0x80000005, [[5, 0, 0, 0x80]]⟩ (by decide)⟩

/-- C3, as stated, fails: from the mask 0x80000001 (left swipe already enabled),
enabling and then disabling left swipe ends at the zero mask. -/
theorem enableThenDisable_not_restoring :
    (enableThenDisable ⟨0, "one_finger_left_swipe", 0x0280⟩ ⟨0x80000001, []⟩).mValue = 0
    ∧ (enableThenDisable ⟨0, "one_finger_left_swipe", 0x0280⟩ ⟨0x80000001, []⟩).mValue
        ≠ (⟨0x80000001, []⟩ : TouchscreenGesture).mValue := by
  decide

theorem enableThenDisable_mask (g : Gesture) (s : TouchscreenGesture) {e : GestureInfo}
    (he : kGestureInfoMap.lookup g.id = some e) :
    (enableThenDisable g s).mValue
      = updateMask (updateMask s.mValue e.value true) e.value false := by
  simp [enableThenDisable, setGestureEnabled, he, setValue_ok]

theorem updateMask_twice_iff {v : Nat} (hv : v < 2 ^ 31) {m : Nat} (hm : m < 2 ^ 32) :
    updateMask (updateMask m v true) v false = m ↔ (m &&& v = 0 ∧ MaskInv m) := by
  have hv32 : v < 2 ^ 32 := lt_trans hv (by norm_num)
  have hA : m % 2 ^ 31 < 2 ^ 32 := lt_trans (Nat.mod_lt _ (by norm_num)) (by norm_num)
  have hL : lowBits (updateMask m v true) v false = m % 2 ^ 31 &&& not32 v := by
    simp only [lowBits, updateMask_mod hv, Bool.false_eq_true, if_false, if_true]
    exact or_and_not32 _ hv32
  have hfin := updateMask_lt hv (updateMask m v true) false
  constructor
  · intro h
    have hinv : MaskInv m := by
      have := updateMask_inv hv (updateMask m v true) false
      rwa [h] at this
    have hmod := updateMask_mod hv (updateMask m v true) false
    rw [h, hL] at hmod
    exact ⟨by rw [← mod_and_eq hv]; exact (and_not32_eq_self_iff hA v).1 hmod.symm, hinv⟩
  · rintro ⟨hclear, hinv⟩
    have hself : m % 2 ^ 31 &&& not32 v = m % 2 ^ 31 :=
      (and_not32_eq_self_iff hA v).2 (by rw [mod_and_eq hv]; exact hclear)
    apply eq_of_low_of_top hfin hm
    · rw [updateMask_mod hv, hL, hself]
    · rw [updateMask_testBit hv, hL, hself]
      unfold MaskInv at hinv
      generalize m % 2 ^ 31 = a at hinv
      by_cases h0 : a = 0
      · have : ¬ (m.testBit 31 = true) := fun h => (hinv.1 h) h0
        simp [h0, this]
      · simp [h0, hinv.2 h0]

/-- C3, amended. For a catalog gesture, enabling it and then disabling it (both
`fopen` succeeding) gives back the mask the pair started from exactly when the
gesture's bit was clear in that mask and the mask satisfied the invariant of
bit 31. -/
theorem enableThenDisable_restores_iff (g : Gesture) (s : TouchscreenGesture)
    (h0 : 0 ≤ g.id) (h5 : g.id ≤ 5) (hs : s.mValue < 2 ^ 32) :
    ∃ e, kGestureInfoMap.lookup g.id = some e
      ∧ ((enableThenDisable g s).mValue = s.mValue
          ↔ (s.mValue &&& e.value = 0 ∧ MaskInv s.mValue)) := by
  obtain ⟨e, he, hv⟩ := lookup_known h0 h5
  refine ⟨e, he, ?_⟩
  rw [enableThenDisable_mask g s he]
  exact updateMask_twice_iff (value_lt_of_mem hv) hs

theorem enableThenDisable_restores_iff_witness :
    ((0 : Int) ≤ 2 ∧ (2 : Int) ≤ 5 ∧ (0x80000001 : Nat) < 2 ^ 32)
    ∧ ∃ e, kGestureInfoMap.lookup 2 = some e
      ∧ ((enableThenDisable ⟨2, "one_finger_up_swipe", 0x0282⟩ ⟨0x80000001, []⟩).mValue
            = 0x80000001
          ↔ (0x80000001 &&& e.value = 0 ∧ MaskInv 0x80000001)) :=
  ⟨by decide, enableThenDisable_restores_iff ⟨2, "one_finger_up_swipe", 0x0282⟩
    ⟨0x80000001, []⟩ (by decide) (by decide) (by decide)⟩

theorem updateMask_lt32 {v : Nat} (hv : v < 2 ^ 32) (m : Nat) (en : Bool) :
    updateMask m v en < 2 ^ 32 := by
  have h1 : m % 2 ^ 31 < 2 ^ 32 := lt_trans (Nat.mod_lt _ (by norm_num)) (by norm_num)
  have h2 : lowBits m v en < 2 ^ 32 := by
    unfold lowBits
    cases en
    · exact lt_of_le_of_lt Nat.and_le_left h1
    · exact Nat.or_lt_two_pow h1 hv
  rw [updateMask_eq]
  split
  · exact Nat.or_lt_two_pow h2 (by norm_num)
  · exact h2

/-- The four bytes of `maskBytes` are the little-endian digits of the mask. -/
theorem maskBytes_spec {m : Nat} (hm : m < 2 ^ 32) :
    ∃ b0 b1 b2 b3 : Nat, maskBytes m = [b0, b1, b2, b3]
      ∧ b0 = (m >>> 0) &&& 0xFF ∧ b1 = (m >>> 8) &&& 0xFF
      ∧ b2 = (m >>> 16) &&& 0xFF ∧ b3 = (m >>> 24) &&& 0xFF
      ∧ b0 < 256 ∧ b1 < 256 ∧ b2 < 256 ∧ b3 < 256
      ∧ b0 + 256 * b1 + 65536 * b2 + 16777216 * b3 = m := by
  have h255 : (0xFF : Nat) = 2 ^ 8 - 1 := by norm_num
  refine ⟨_, _, _, _, rfl, by simp, rfl, rfl, rfl, ?_, ?_, ?_, ?_, ?_⟩
  all_goals
    simp only [h255, Nat.and_pow_two_sub_one_eq_mod, Nat.shiftRight_eq_div_pow]
    norm_num at hm ⊢
    omega

/-- C4. A `setValue` call that succeeds hands the control file exactly four
bytes, the little-endian encoding of the updated mask: byte `i` is
`(m >> 8*i) & 0xFF`, so `b0 + 256*b1 + 65536*b2 + 16777216*b3 = m`. Enabling the
catalog ids 0 and 2 from the zero mask reaches 0x80000005, written as
`[0x05, 0x00, 0x00, 0x80]`. -/
theorem setValue_writes_little_endian (openOk : Bool) (value : Nat) (enabled : Bool)
    (s : TouchscreenGesture) (hv : value < 2 ^ 32)
    (hok : (setValue openOk value enabled s).1 = true) :
    (∃ b0 b1 b2 b3 : Nat,
        (setValue openOk value enabled s).2.control = s.control ++ [[b0, b1, b2, b3]]
        ∧ b0 = ((setValue openOk value enabled s).2.mValue >>> 0) &&& 0xFF
        ∧ b1 = ((setValue openOk value enabled s).2.mValue >>> 8) &&& 0xFF
        ∧ b2 = ((setValue openOk value enabled s).2.mValue >>> 16) &&& 0xFF
        ∧ b3 = ((setValue openOk value enabled s).2.mValue >>> 24) &&& 0xFF
        ∧ b0 < 256 ∧ b1 < 256 ∧ b2 < 256 ∧ b3 < 256
        ∧ b0 + 256 * b1 + 65536 * b2 + 16777216 * b3
            = (setValue openOk value enabled s).2.mValue)
    ∧ (runCalls [(true, .gesture ⟨0, "one_finger_left_swipe", 0x0280⟩ true),
                 (true, .gesture ⟨2, "one_finger_up_swipe", 0x0282⟩ true)] zeroState).mValue
        = 0x80000005
    ∧ (runCalls [(true, .gesture ⟨0, "one_finger_left_swipe", 0x0280⟩ true),
                 (true, .gesture ⟨2, "one_finger_up_swipe", 0x0282⟩ true)] zeroState).control
        = [[0x01, 0x00, 0x00, 0x80], [0x05, 0x00, 0x00, 0x80]] := by
  refine ⟨?_, by decide, by decide⟩
  cases openOk
  · simp [setValue_fail] at hok
  · obtain ⟨b0, b1, b2, b3, hb, h⟩ := maskBytes_spec (updateMask_lt32 hv s.mValue enabled)
    exact ⟨b0, b1, b2, b3, by rw [setValue_ok, hb], h⟩

theorem setValue_writes_little_endian_witness :
    ((8192 : Nat) < 2 ^ 32
      ∧ (setValue true 8192 true ⟨0x80000100, [[0, 1, 0, 0x80]]⟩).1 = true)
    ∧ (∃ b0 b1 b2 b3 : Nat,
        (setValue true 8192 true ⟨0x80000100, [[0, 1, 0, 0x80]]⟩).2.control
          = [[0, 1, 0, 0x80]] ++ [[b0, b1, b2, b3]]
        ∧ b0 = ((setValue true 8192 true ⟨0x80000100, [[0, 1, 0, 0x80]]⟩).2.mValue >>> 0) &&& 0xFF
        ∧ b1 = ((setValue true 8192 true ⟨0x80000100, [[0, 1, 0, 0x80]]⟩).2.mValue >>> 8) &&& 0xFF
        ∧ b2 = ((setValue true 8192 true ⟨0x80000100, [[0, 1, 0, 0x80]]⟩).2.mValue >>> 16) &&& 0xFF
        ∧ b3 = ((setValue true 8192 true ⟨0x80000100, [[0, 1, 0, 0x80]]⟩).2.mValue >>> 24) &&& 0xFF
        ∧ b0 < 256 ∧ b1 < 256 ∧ b2 < 256 ∧ b3 < 256
        ∧ b0 + 256 * b1 + 65536 * b2 + 16777216 * b3
            = (setValue true 8192 true ⟨0x80000100, [[0, 1, 0, 0x80]]⟩).2.mValue) :=
  ⟨⟨by decide, by decide⟩,
    (setValue_writes_little_endian true 8192 true ⟨0x80000100, [[0, 1, 0, 0x80]]⟩
      (by decide) (by decide)).1⟩

theorem updateMask_and_value {v : Nat} (hv : v < 2 ^ 31) (m : Nat) (en : Bool) :
    updateMask m v en &&& v = if en then v else 0 := by
  have hv32 : v < 2 ^ 32 := lt_trans hv (by norm_num)
  rw [← mod_and_eq hv, updateMask_mod hv]
  unfold lowBits
  apply Nat.eq_of_testBit_eq
  intro i
  cases en
  · simp only [Bool.false_eq_true, if_false, Nat.testBit_and, testBit_not32, Nat.zero_testBit]
    by_cases hi : i < 32
    · cases (m % 2 ^ 31).testBit i <;> cases v.testBit i <;> simp [hi]
    · rw [testBit_high hv32 (by omega)]; simp
  · simp only [if_true, Nat.testBit_and, Nat.testBit_or]
    cases (m % 2 ^ 31).testBit i <;> cases v.testBit i <;> simp

/-- C5, as stated, fails: when `fopen` fails, enabling left swipe on the zero
mask returns false and leaves the mask at zero, whereas with a successful
`fopen` it returns true and the mask becomes 0x80000001. -/
theorem open_failure_changes_outcome :
    (setGestureEnabled false ⟨0, "one_finger_left_swipe", 0x0280⟩ true zeroState).1 = false
    ∧ (setGestureEnabled false ⟨0, "one_finger_left_swipe", 0x0280⟩ true zeroState).2.mValue = 0
    ∧ (setGestureEnabled true ⟨0, "one_finger_left_swipe", 0x0280⟩ true zeroState).1 = true
    ∧ (setGestureEnabled true ⟨0, "one_finger_left_swipe", 0x0280⟩ true zeroState).2.mValue
        = 0x80000001 := by
  decide

/-- C5, amended. For a catalog id the outcome of `setGestureEnabled` depends on
the `fopen` of the control file. When it fails the call returns false, the mask
keeps its old value and nothing is written. When it succeeds the call returns
true and the mask holds the new state: the feature's bit is set or cleared as
asked and bit 31 is recomputed. -/
theorem setGestureEnabled_by_open_outcome (g : Gesture) (enabled : Bool)
    (s : TouchscreenGesture) (h0 : 0 ≤ g.id) (h5 : g.id ≤ 5) :
    ∃ e, kGestureInfoMap.lookup g.id = some e
      ∧ setGestureEnabled false g enabled s = (false, s)
      ∧ (setGestureEnabled true g enabled s).1 = true
      ∧ (setGestureEnabled true g enabled s).2.mValue = updateMask s.mValue e.value enabled
      ∧ (setGestureEnabled true g enabled s).2.mValue &&& e.value
          = (if enabled then e.value else 0)
      ∧ MaskInv (setGestureEnabled true g enabled s).2.mValue := by
  obtain ⟨e, he, hv⟩ := lookup_known h0 h5
  have hlt := value_lt_of_mem hv
  refine ⟨e, he, ?_, ?_, ?_, ?_, ?_⟩
  · simp [setGestureEnabled, he, setValue_fail]
  · simp [setGestureEnabled, he, setValue_ok]
  · simp [setGestureEnabled, he, setValue_ok]
  · simp only [setGestureEnabled, he, setValue_ok]
    exact updateMask_and_value hlt _ _
  · simp only [setGestureEnabled, he, setValue_ok]
    exact updateMask_inv hlt _ _

theorem setGestureEnabled_by_open_outcome_witness :
    ((0 : Int) ≤ 5 ∧ (5 : Int) ≤ 5)
    ∧ ∃ e, kGestureInfoMap.lookup 5 = some e
      ∧ setGestureEnabled false ⟨5, "letter_v", 0x0296⟩ false ⟨0x80002001, []⟩
          = (false, ⟨0x80002001, []⟩)
      ∧ (setGestureEnabled true ⟨5, "letter_v", 0x0296⟩ false ⟨0x80002001, []⟩).1 = true
      ∧ (setGestureEnabled true ⟨5, "letter_v", 0x0296⟩ false ⟨0x80002001, []⟩).2.mValue
          = updateMask 0x80002001 e.value false
      ∧ (setGestureEnabled true ⟨5, "letter_v", 0x0296⟩ false ⟨0x80002001, []⟩).2.mValue
            &&& e.value = (if false then e.value else 0)
      ∧ MaskInv (setGestureEnabled true ⟨5, "letter_v", 0x0296⟩ false ⟨0x80002001, []⟩).2.mValue :=
  ⟨by decide, setGestureEnabled_by_open_outcome ⟨5, "letter_v", 0x0296⟩ false
    ⟨0x80002001, []⟩ (by decide) (by decide)⟩

theorem orAll_filter_map (b : Feature → Bool) (l : List Feature) :
    orAll ((l.filter b).map Feature.value)
      = orAll (l.map (fun f => if b f then f.value else 0)) := by
  induction l with
  | nil => rfl
  | cons a l ih =>
    simp only [orAll] at ih
    cases h : b a
    · simp [List.filter_cons, h, orAll, ih]
    · simp [List.filter_cons, h, orAll, ih]

theorem encode_eq (b : Feature → Bool) :
    encode b = enc (b (.gesture 0)) (b (.gesture 1)) (b (.gesture 2)) (b (.gesture 3))
      (b (.gesture 4)) (b (.gesture 5)) (b .doubleTap) := by
  rw [encode, orAll_filter_map]
  rfl

theorem mem_features {f : Feature} (hf : f ∈ features) :
    f = .gesture 0 ∨ f = .gesture 1 ∨ f = .gesture 2 ∨ f = .gesture 3 ∨ f = .gesture 4
      ∨ f = .gesture 5 ∨ f = .doubleTap := by
  simpa [features, kGestureInfoMap] using hf

theorem enc_step :
    ∀ x0 x1 x2 x3 x4 x5 x6 en : Bool,
      (if en then enc x0 x1 x2 x3 x4 x5 x6 ||| 1 else enc x0 x1 x2 x3 x4 x5 x6 &&& not32 1)
          = enc en x1 x2 x3 x4 x5 x6
      ∧ (if en then enc x0 x1 x2 x3 x4 x5 x6 ||| 2 else enc x0 x1 x2 x3 x4 x5 x6 &&& not32 2)
          = enc x0 en x2 x3 x4 x5 x6
      ∧ (if en then enc x0 x1 x2 x3 x4 x5 x6 ||| 4 else enc x0 x1 x2 x3 x4 x5 x6 &&& not32 4)
          = enc x0 x1 en x3 x4 x5 x6
      ∧ (if en then enc x0 x1 x2 x3 x4 x5 x6 ||| 8 else enc x0 x1 x2 x3 x4 x5 x6 &&& not32 8)
          = enc x0 x1 x2 en x4 x5 x6
      ∧ (if en then enc x0 x1 x2 x3 x4 x5 x6 ||| 256 else enc x0 x1 x2 x3 x4 x5 x6 &&& not32 256)
          = enc x0 x1 x2 x3 en x5 x6
      ∧ (if en then enc x0 x1 x2 x3 x4 x5 x6 ||| 8192 else enc x0 x1 x2 x3 x4 x5 x6 &&& not32 8192)
          = enc x0 x1 x2 x3 x4 en x6
      ∧ (if en then enc x0 x1 x2 x3 x4 x5 x6 ||| 16 else enc x0 x1 x2 x3 x4 x5 x6 &&& not32 16)
          = enc x0 x1 x2 x3 x4 x5 en := by
  decide

theorem encode_step (b : Feature → Bool) {f : Feature} (hf : f ∈ features) (en : Bool) :
    (if en then encode b ||| f.value else encode b &&& not32 f.value)
      = encode (fun g => if f = g then en else b g) := by
  have h := enc_step (b (.gesture 0)) (b (.gesture 1)) (b (.gesture 2)) (b (.gesture 3))
    (b (.gesture 4)) (b (.gesture 5)) (b .doubleTap) en
  obtain ⟨h0, h1, h2, h3, h4, h5, h6⟩ := h
  rw [encode_eq, encode_eq]
  rcases mem_features hf with h | h | h | h | h | h | h <;> subst h
  · simpa using h0
  · simpa using h1
  · simpa using h2
  · simpa using h3
  · simpa using h4
  · simpa using h5
  · simpa using h6

theorem lastEnabled_concat (f : Feature) (cs : List Call) (c : Call) :
    lastEnabled f (cs ++ [c]) = if c.feature = f then c.enabled else lastEnabled f cs := by
  unfold lastEnabled
  by_cases h : c.feature = f
  · simp [List.filter_append, List.filter_cons, h]
  · simp [List.filter_append, List.filter_cons, h]

theorem known_feature_mem {c : Call} (hc : c.Known) : c.feature ∈ features := by
  cases c with
  | gesture g en =>
    have h : g.id = 0 ∨ g.id = 1 ∨ g.id = 2 ∨ g.id = 3 ∨ g.id = 4 ∨ g.id = 5 := by
      have := hc.1; have := hc.2; omega
    simp only [Call.feature]
    rcases h with h | h | h | h | h | h <;> rw [h] <;> decide
  | doubleTap en => simp [Call.feature, features]

theorem feature_value_lt {f : Feature} (hf : f ∈ features) : f.value < 2 ^ 31 := by
  rcases mem_features hf with h | h | h | h | h | h | h <;> subst h <;> decide

/-- A call on a known feature, with `fopen` succeeding, updates the mask with
the feature's bit value and appends the four bytes to the control file. -/
theorem apply_known (c : Call) (hc : c.Known) (s : TouchscreenGesture) :
    c.apply true s
      = { mValue := updateMask s.mValue c.feature.value c.enabled,
          control := s.control ++ [maskBytes (updateMask s.mValue c.feature.value c.enabled)] } := by
  cases c with
  | gesture g en =>
    obtain ⟨e, he, _⟩ := lookup_known hc.1 hc.2
    simp [Call.apply, setGestureEnabled, he, setValue_ok, Call.feature, Call.enabled,
      Feature.value]
  | doubleTap en =>
    simp [Call.apply, setDoubleTapEnabled, setValue_ok, Call.feature, Call.enabled,
      Feature.value]

theorem runCalls_concat (cs : List (Bool × Call)) (c : Bool × Call) (s : TouchscreenGesture) :
    runCalls (cs ++ [c]) s = c.2.apply c.1 (runCalls cs s) := by
  simp [runCalls, List.foldl_append]

theorem low_bits_encode (cs : List Call) (hcs : ∀ c ∈ cs, c.Known) :
    (runCalls (cs.map (fun c => (true, c))) zeroState).mValue % 2 ^ 31
      = encode (fun f => lastEnabled f cs) := by
  induction cs using List.reverseRecOn with
  | nil => decide
  | append_singleton cs c ih =>
    have hc : c.Known := hcs c (by simp)
    have ih' := ih (fun d hd => hcs d (by simp [hd]))
    have hf := known_feature_mem hc
    rw [List.map_append, List.map_singleton, runCalls_concat, apply_known c hc]
    simp only []
    rw [updateMask_mod (feature_value_lt hf), lowBits, ih', encode_step _ hf]
    congr 1
    funext g
    rw [lastEnabled_concat]

theorem values_disjoint {f g : Feature} (hf : f ∈ features) (hg : g ∈ features) (hne : f ≠ g) :
    f.value &&& g.value = 0 := by
  rcases mem_features hf with h | h | h | h | h | h | h <;> subst h <;>
    rcases mem_features hg with h | h | h | h | h | h | h <;> subst h <;>
    first
      | exact absurd rfl hne
      | decide

theorem updateMask_and_other {v w : Nat} (hv : v < 2 ^ 31) (hw : w < 2 ^ 31)
    (hvw : v &&& w = 0) (m : Nat) (en : Bool) :
    updateMask m v en &&& w = m &&& w := by
  rw [← mod_and_eq hw, updateMask_mod hv, ← mod_and_eq hw m]
  unfold lowBits
  apply Nat.eq_of_testBit_eq
  intro i
  have hi := congrArg (fun x => x.testBit i) hvw
  simp only [Nat.testBit_and, Nat.zero_testBit] at hi
  cases en
  · simp only [Bool.false_eq_true, if_false, Nat.testBit_and, testBit_not32]
    by_cases h32 : i < 32
    · revert hi
      cases (m % 2 ^ 31).testBit i <;> cases v.testBit i <;> cases w.testBit i <;> simp [h32]
    · rw [testBit_high hw (by omega)]; simp
  · simp only [if_true, Nat.testBit_and, Nat.testBit_or]
    revert hi
    cases (m % 2 ^ 31).testBit i <;> cases v.testBit i <;> cases w.testBit i <;> simp

/-- C10. After any finite sequence of successful calls on known features
(catalog gestures and double tap) from the zero mask, the low 31 bits of the
mask are the OR of the bit values of exactly the features whose most recent call
was an enable. The seven bit values are pairwise distinct single bits below
bit 31, and a call on one feature leaves every other feature's bit as it was. -/
theorem low_bits_are_or_of_last_enabled (cs : List Call) (hcs : ∀ c ∈ cs, c.Known) :
    (runCalls (cs.map (fun c => (true, c))) zeroState).mValue % 2 ^ 31
      = orAll ((features.filter (fun f => lastEnabled f cs)).map Feature.value)
    ∧ (features.map Feature.value).Nodup
    ∧ features.length = 7
    ∧ (∀ f ∈ features, ∃ k, k < 31 ∧ f.value = 2 ^ k)
    ∧ (∀ (s : TouchscreenGesture) (c : Call) (f : Feature), c.Known → f ∈ features →
        f ≠ c.feature → (c.apply true s).mValue &&& f.value = s.mValue &&& f.value) := by
  refine ⟨low_bits_encode cs hcs, by decide, by decide, ?_, ?_⟩
  · intro f hf
    rcases mem_features hf with h | h | h | h | h | h | h <;> subst h
    · exact ⟨0, by decide, by decide⟩
    · exact ⟨1, by decide, by decide⟩
    · exact ⟨2, by decide, by decide⟩
    · exact ⟨3, by decide, by decide⟩
    · exact ⟨8, by decide, by decide⟩
    · exact ⟨13, by decide, by decide⟩
    · exact ⟨4, by decide, by decide⟩
  · intro s c f hc hf hne
    have hcf := known_feature_mem hc
    rw [apply_known c hc]
    exact updateMask_and_other (feature_value_lt hcf) (feature_value_lt hf)
      (values_disjoint hcf hf (Ne.symm hne)) _ _

theorem low_bits_are_or_of_last_enabled_witness :
    (∀ c ∈ [Call.gesture ⟨4, "letter_c", 0x0291⟩ true, Call.doubleTap true,
            Call.gesture ⟨4, "letter_c", 0x0291⟩ false, Call.gesture ⟨1, "", 0⟩ true],
        c.Known)
    ∧ (runCalls ([Call.gesture ⟨4, "letter_c", 0x0291⟩ true, Call.doubleTap true,
            Call.gesture ⟨4, "letter_c", 0x0291⟩ false, Call.gesture ⟨1, "", 0⟩ true].map
          (fun c => (true, c))) zeroState).mValue % 2 ^ 31
        = orAll ((features.filter (fun f => lastEnabled f
            [Call.gesture ⟨4, "letter_c", 0x0291⟩ true, Call.doubleTap true,
             Call.gesture ⟨4, "letter_c", 0x0291⟩ false, Call.gesture ⟨1, "", 0⟩ true])).map
          Feature.value) :=
  ⟨by decide, (low_bits_are_or_of_last_enabled _ (by decide)).1⟩

/-- The body of the loop: where it leaves the thread. -/
theorem fifo_loopBody_spec (e : Env) (w : Worker) :
    ((loopBody e w).pc = .loopHead ∨ (loopBody e w).pc = .cleanup)
      ∧ (loopBody e w).destroyThread = w.destroyThread
      ∧ (loopBody e w).fd = w.fd
      ∧ (loopBody e w).openFds = w.openFds
      ∧ (loopBody e w).reads = w.reads + 1 := by
  unfold loopBody
  cases e.read with
  | error => simp
  | data bytes =>
    simp only []
    split
    · simp
    · split
      · simp
      · split <;> simp

theorem fifo_advance_inv (e : Env) (w : Worker) (h : Inv w) : Inv (advance e w) := by
  unfold advance
  obtain ⟨pc, flag, fd, buf, fds, r, svc⟩ := w
  cases pc
  case mkfifo =>
    simp only [Inv] at h
    by_cases hc : e.ret < 0 <;> simp [Inv, hc, h]
  case openFifo =>
    simp only [Inv] at h
    by_cases hc : e.ret < 0 <;> simp [Inv, hc, h]
  case loopHead =>
    simp only [Inv] at h
    cases flag <;> simp [Inv, h]
  case readFifo =>
    simp only [Inv] at h
    obtain ⟨hpc, -, hfd, hfds, -⟩ := fifo_loopBody_spec e ⟨.readFifo, flag, fd, buf, fds, r, svc⟩
    simp only []
    generalize loopBody e ⟨.readFifo, flag, fd, buf, fds, r, svc⟩ = u at hpc hfd hfds ⊢
    obtain ⟨pc', flag', fd', buf', fds', r', svc'⟩ := u
    simp only at hpc hfd hfds
    rcases hpc with hpc | hpc <;> subst hpc <;> simp [Inv, hfd, hfds, h]
  case cleanup =>
    simp only [Inv] at h
    simp [Inv, h]
  case done =>
    exact h

theorem fifo_advance_flag (e : Env) (w : Worker) :
    (advance e w).destroyThread = w.destroyThread := by
  unfold advance
  obtain ⟨pc, flag, fd, buf, fds, r, svc⟩ := w
  cases pc
  case readFifo => exact (fifo_loopBody_spec e _).2.1
  all_goals simp only [] <;> repeat' split
  all_goals rfl

theorem fifo_advance_measures (e : Env) (w : Worker) (hf : w.destroyThread = true) :
    stepsLeft (advance e w) ≤ stepsLeft w - 1
      ∧ w.reads ≤ (advance e w).reads
      ∧ (advance e w).reads + readsLeft (advance e w) ≤ w.reads + readsLeft w := by
  unfold advance
  obtain ⟨pc, flag, fd, buf, fds, r, svc⟩ := w
  simp only at hf
  subst hf
  cases pc
  case mkfifo =>
    by_cases hc : e.ret < 0 <;> simp [stepsLeft, readsLeft, hc]
  case openFifo =>
    by_cases hc : e.ret < 0 <;> simp [stepsLeft, readsLeft, hc]
  case loopHead =>
    simp [stepsLeft, readsLeft]
  case readFifo =>
    obtain ⟨hpc, -, -, -, hrd⟩ := fifo_loopBody_spec e ⟨.readFifo, true, fd, buf, fds, r, svc⟩
    simp only []
    generalize loopBody e ⟨.readFifo, true, fd, buf, fds, r, svc⟩ = u at hpc hrd ⊢
    obtain ⟨pc', flag', fd', buf', fds', r', svc'⟩ := u
    simp only at hpc hrd
    rcases hpc with hpc | hpc <;> subst hpc <;> simp [stepsLeft, readsLeft, hrd]
  case cleanup =>
    simp [stepsLeft, readsLeft]
  case done =>
    simp [stepsLeft, readsLeft]

theorem fifo_step_signal (e : Env) (w : Worker) (sig : Int) (hs : e.signal = some sig) :
    step e w = { w with destroyThread := sighandler sig w.destroyThread } := by
  simp [step, hs]

theorem fifo_step_own (e : Env) (w : Worker) (hs : e.signal = none) :
    step e w = advance e w := by
  simp [step, hs]

theorem fifo_step_inv (e : Env) (w : Worker) (h : Inv w) : Inv (step e w) := by
  cases hs : e.signal with
  | none => rw [fifo_step_own e w hs]; exact fifo_advance_inv e w h
  | some sig => rw [fifo_step_signal e w sig hs]; exact h

theorem fifo_run_cons (e : Env) (es : List Env) (w : Worker) :
    run (e :: es) w = run es (step e w) := rfl

theorem fifo_run_inv (es : List Env) (w : Worker) (h : Inv w) : Inv (run es w) := by
  induction es generalizing w with
  | nil => exact h
  | cons e es ih =>
    rw [fifo_run_cons]
    exact ih _ (fifo_step_inv e w h)

theorem fifo_run_after_flag (es : List Env) (w : Worker) (hf : w.destroyThread = true) :
    (run es w).destroyThread = true
      ∧ w.reads ≤ (run es w).reads
      ∧ (run es w).reads ≤ w.reads + readsLeft w
      ∧ stepsLeft (run es w) ≤ stepsLeft w - ownSteps es := by
  induction es generalizing w with
  | nil => exact ⟨hf, le_refl _, by simp [run], by simp [run, ownSteps]⟩
  | cons e es ih =>
    rw [fifo_run_cons]
    cases hs : e.signal with
    | some sig =>
      have hown : ownSteps (e :: es) = ownSteps es := by simp [ownSteps, List.filter_cons, hs]
      rw [fifo_step_signal e w sig hs, hown]
      exact ih _ (by simp [sighandler, hf])
    | none =>
      have hown : ownSteps (e :: es) = ownSteps es + 1 := by
        simp [ownSteps, List.filter_cons, hs]
      have hm := fifo_advance_measures e w hf
      have ih' := ih (advance e w) (by rw [fifo_advance_flag]; exact hf)
      rw [fifo_step_own e w hs, hown]
      refine ⟨ih'.1, le_trans hm.2.1 ih'.2.1, by omega, by omega⟩

theorem fifo_done_of_stepsLeft (w : Worker) (h : Inv w) (h0 : stepsLeft w = 0) :
    w.pc = .done ∧ w.openFds = [] := by
  obtain ⟨pc, flag, fd, buf, fds, r, svc⟩ := w
  cases pc <;> simp [stepsLeft] at h0
  exact ⟨rfl, h⟩

theorem fifo_loopHead_exit (e : Env) (w : Worker) (hf : w.destroyThread = true)
    (hpc : w.pc = .loopHead) : (step e w).pc ≠ .readFifo := by
  obtain ⟨pc, flag, fd, buf, fds, r, svc⟩ := w
  simp only at hf hpc
  subst hf hpc
  cases hs : e.signal with
  | none => simp [step, hs, advance]
  | some sig => simp [step, hs]

/-- The gesture poller after its flag is set. -/
theorem touch_after_flag (es0 es1 : List Env) (w0 : Worker) (hw0 : Inv w0)
    (hf : (run es0 w0).destroyThread = true) :
    (∀ e, (run es1 (run es0 w0)).pc = .loopHead →
        (step e (run es1 (run es0 w0))).pc ≠ .readFifo)
    ∧ ((run es0 w0).pc ≠ .readFifo → (run es1 (run es0 w0)).reads = (run es0 w0).reads)
    ∧ (run es1 (run es0 w0)).reads ≤ (run es0 w0).reads + 1
    ∧ (4 ≤ ownSteps es1 →
        (run es1 (run es0 w0)).pc = .done ∧ (run es1 (run es0 w0)).openFds = []) := by
  have hinv := fifo_run_inv es0 w0 hw0
  have hinv1 := fifo_run_inv es1 _ hinv
  obtain ⟨hflag, hmono, hreads, hsteps⟩ := fifo_run_after_flag es1 _ hf
  have hsl : stepsLeft (run es0 w0) ≤ 4 ∧ readsLeft (run es0 w0) ≤ 1 := by
    generalize run es0 w0 = w
    obtain ⟨pc, flag, fd, buf, fds, r, svc⟩ := w
    cases pc <;> simp [stepsLeft, readsLeft]
  refine ⟨fun e hpc => fifo_loopHead_exit e _ hflag hpc, ?_, by omega, ?_⟩
  · intro hw
    have hz : readsLeft (run es0 w0) = 0 := by
      generalize run es0 w0 = w at hw
      obtain ⟨pc, flag, fd, buf, fds, r, svc⟩ := w
      cases pc <;> simp [readsLeft] at hw ⊢
    omega
  · intro hlen
    exact fifo_done_of_stepsLeft _ hinv1 (by omega)

theorem takeWhile_append_of_stop {p : Nat → Bool} {l : List Nat} (h : ∃ a ∈ l, p a = false)
    (r : List Nat) : (l ++ r).takeWhile p = l.takeWhile p := by
  induction l with
  | nil => obtain ⟨a, ha, _⟩ := h; cases ha
  | cons x l ih =>
    cases hx : p x
    · simp [List.takeWhile_cons, hx]
    · have h' : ∃ a ∈ l, p a = false := by
        obtain ⟨a, ha, hpa⟩ := h
        rcases List.mem_cons.1 ha with rfl | ha
        · rw [hx] at hpa; cases hpa
        · exact ⟨a, ha, hpa⟩
      simp [List.takeWhile_cons, hx, ih h']

theorem takeWhile_append_of_all {p : Nat → Bool} {l : List Nat} (h : ∀ a ∈ l, p a = true)
    (r : List Nat) : (l ++ r).takeWhile p = l ++ r.takeWhile p := by
  induction l with
  | nil => rfl
  | cons x l ih =>
    have hx : p x = true := h x (by simp)
    simp [List.takeWhile_cons, hx, ih (fun a ha => h a (by simp [ha]))]

theorem dropWhile_append_of_ne_nil {p : Nat → Bool} {l : List Nat} (h : l.dropWhile p ≠ [])
    (r : List Nat) : (l ++ r).dropWhile p = l.dropWhile p ++ r := by
  induction l with
  | nil => exact absurd rfl h
  | cons x l ih =>
    cases hx : p x
    · simp [List.dropWhile_cons, hx]
    · simp only [List.dropWhile_cons, hx, if_true] at h
      simp [List.dropWhile_cons, hx, ih h]

theorem stripSign_append {b : List Nat} (hb : b ≠ []) (r : List Nat) :
    stripSign (b ++ r) = ((stripSign b).1, (stripSign b).2 ++ r) := by
  cases b with
  | nil => exact absurd rfl hb
  | cons c t =>
    simp only [stripSign, List.cons_append]
    by_cases h1 : c = 0x2D
    · simp [h1]
    · by_cases h2 : c = 0x2B
      · simp [h2]
      · simp [h1, h2]

/-- When the scan of a chunk is decided inside the chunk, the bytes behind it in
the array do not matter. -/
theorem sscanf_d_append (chunk rest : List Nat) (h : selfDelimited chunk = true) :
    sscanf_d (chunk ++ rest) = sscanf_d chunk := by
  by_cases h0 : ∃ a ∈ chunk, (a != 0) = false
  · unfold sscanf_d
    rw [takeWhile_append_of_stop h0]
  · have hall : ∀ a ∈ chunk, (a != 0) = true := by
      intro a ha
      by_contra hn
      exact h0 ⟨a, ha, by simpa using hn⟩
    have hnot : chunk.contains 0 = false := by
      rw [Bool.eq_false_iff]
      intro hc
      have := hall 0 (by simpa using hc)
      simp at this
    simp only [selfDelimited, hnot, Bool.false_or, List.any_eq_true] at h
    obtain ⟨c, hc, hcd⟩ := h
    have hb : chunk.dropWhile isspace ≠ [] := by
      intro hnil
      rw [hnil] at hc
      simp [stripSign] at hc
    have hstop : ∃ a ∈ (stripSign (chunk.dropWhile isspace)).2, isdigit a = false :=
      ⟨c, hc, by simpa using hcd⟩
    have e1 : (chunk ++ rest).takeWhile (fun c => c != 0)
        = chunk ++ rest.takeWhile (fun c => c != 0) := takeWhile_append_of_all hall rest
    have e2 : chunk.takeWhile (fun c => c != 0) = chunk := by
      have := takeWhile_append_of_all hall []
      simpa using this
    unfold sscanf_d
    simp only [e1, e2, dropWhile_append_of_ne_nil hb, stripSign_append hb,
      takeWhile_append_of_stop hstop]

/-- The body of the loop on a chunk whose scan is decided inside the chunk. -/
theorem loopBody_service (e : Env) (w : Worker) (bytes : List Nat)
    (hread : e.read = .data bytes) (hne : bytes ≠ []) (hlen : bytes.length ≤ 10)
    (hdel : selfDelimited bytes = true) :
    (loopBody e w).service
      = match sscanf_d bytes with
        | none => w.service
        | some n => setDoubleTapEnabled e.openOk (decide (n ≠ 0)) w.service := by
  have hpos : bytes.length ≠ 0 := fun h => hne (List.length_eq_zero.1 h)
  unfold loopBody
  rw [hread]
  simp only [List.take_of_length_le hlen, storeChunk, sscanf_d_append _ _ hdel, hpos, if_false]
  cases sscanf_d bytes with
  | none => rfl
  | some n =>
    by_cases hn : n = 0
    · simp [hn]
    · simp [hn]

/-- C8, as stated, fails when the control file cannot be opened: double tap is
enabled (mask 0x80000010), the line "0\n" is read, and the bit stays set; and
from the zero mask the line "1\n" leaves the bit clear. -/
theorem line_read_with_failed_open_keeps_mask :
    afterFirstLine.pc = .readFifo
    ∧ afterFirstLine.service.mValue = 0x80000010
    ∧ sscanf_d [0x30, 0x0A] = some 0
    ∧ (advance (lineZero false) afterFirstLine).service.mValue = 0x80000010
    ∧ (advance (lineZero false) afterFirstLine).service.mValue &&& DOUBLE_TAP_ENABLE ≠ 0
    ∧ sscanf_d [0x31, 0x0A] = some 1
    ∧ (advance { lineOne with openOk := false }
        { afterFirstLine with service := zeroState }).service.mValue &&& DOUBLE_TAP_ENABLE = 0 := by
  decide

/-- C8, amended. The poller has read a non-empty chunk whose scan is decided
inside the chunk (it holds a NUL, or a byte that is not a digit after its
leading white space and optional sign, such as the newline of a line). If the
chunk begins with a decimal integer `n`, the poller calls
`setDoubleTapEnabled(n != 0)`: when the control file opens, `n = 0` clears the
double-tap bit and `n != 0` sets it; when it does not open, the mask and the
control file are left as they were. If no leading integer can be parsed, or the
read returns zero bytes, the mask is unchanged and nothing is written. -/
theorem chunk_toggles_double_tap (e : Env) (w : Worker) (bytes : List Nat)
    (hpc : w.pc = .readFifo) (hread : e.read = .data bytes)
    (hne : bytes ≠ []) (hlen : bytes.length ≤ 10) (hdel : selfDelimited bytes = true) :
    (∀ n, sscanf_d bytes = some n →
        (advance e w).service = setDoubleTapEnabled e.openOk (decide (n ≠ 0)) w.service
        ∧ (e.openOk = true →
            (advance e w).service.mValue &&& DOUBLE_TAP_ENABLE
              = if n ≠ 0 then DOUBLE_TAP_ENABLE else 0)
        ∧ (e.openOk = false → (advance e w).service = w.service))
    ∧ (sscanf_d bytes = none → (advance e w).service = w.service)
    ∧ (∀ e0 : Env, e0.read = .data [] → (advance e0 w).service = w.service) := by
  have hadv : ∀ x : Env, advance x w = loopBody x w := by
    intro x
    obtain ⟨pc, flag, fd, buf, fds, r, svc⟩ := w
    simp only at hpc
    subst hpc
    rfl
  have hsvc := loopBody_service e w bytes hread hne hlen hdel
  refine ⟨?_, ?_, ?_⟩
  · intro n hn
    rw [hadv, hsvc, hn]
    refine ⟨rfl, ?_, ?_⟩
    · intro hok
      simp only [hok, setDoubleTapEnabled, setValue_ok]
      rw [updateMask_and_value doubleTap_lt]
      by_cases h0 : n = 0 <;> simp [h0]
    · intro hok
      simp only [hok, setDoubleTapEnabled, setValue_fail]
  · intro hn
    rw [hadv, hsvc, hn]
  · intro e0 h0
    rw [hadv]
    unfold loopBody
    rw [h0]
    simp

/-- The line "0\n" read while double tap is enabled, the control file opening:
the bit is cleared. -/
theorem chunk_toggles_double_tap_witness :
    (afterFirstLine.pc = .readFifo ∧ (lineZero true).read = .data [0x30, 0x0A]
      ∧ [0x30, 0x0A] ≠ ([] : List Nat) ∧ [0x30, 0x0A].length ≤ 10
      ∧ selfDelimited [0x30, 0x0A] = true ∧ sscanf_d [0x30, 0x0A] = some 0)
    ∧ (advance (lineZero true) afterFirstLine).service.mValue &&& DOUBLE_TAP_ENABLE
        = (if (0 : Int) ≠ 0 then DOUBLE_TAP_ENABLE else 0) :=
  ⟨by decide,
    ((chunk_toggles_double_tap (lineZero true) afterFirstLine [0x30, 0x0A]
      (by decide) rfl (by decide) (by decide) (by decide)).1 0 (by decide)).2.1 rfl⟩

/-- A chunk whose scan is not decided inside the chunk. After the line "15\n",
the one-byte chunk "0" is read. The chunk on its own is the decimal integer 0,
but `buf` now starts with "05\n": the scan yields 5, double tap is enabled again
and its bit stays set. Likewise the one-byte chunk " ", which holds no integer,
is scanned as " 5\n" and the mask is written once more. -/
theorem short_chunk_scanned_with_stale_bytes :
    afterFirstLine.pc = .readFifo
    ∧ afterFirstLine.service.mValue = 0x80000010
    ∧ selfDelimited [0x30] = false
    ∧ sscanf_d [0x30] = some 0
    ∧ (step ⟨none, 0, .data [0x30], true⟩ afterFirstLine).buf.take 3 = [0x30, 0x35, 0x0A]
    ∧ sscanf_d (step ⟨none, 0, .data [0x30], true⟩ afterFirstLine).buf = some 5
    ∧ (step ⟨none, 0, .data [0x30], true⟩ afterFirstLine).service.mValue = 0x80000010
    ∧ (step ⟨none, 0, .data [0x30], true⟩ afterFirstLine).service.mValue
        &&& DOUBLE_TAP_ENABLE ≠ 0
    ∧ sscanf_d [0x20] = none
    ∧ (step ⟨none, 0, .data [0x20], true⟩ afterFirstLine).service.control
        = afterFirstLine.service.control ++ [[0x10, 0x00, 0x00, 0x80]] := by
  decide

end Touch

namespace Fod

theorem erase_pair (a b : Int) : ([a, b].erase b).erase a = [] := by
  by_cases h : a = b
  · subst h; simp
  · have h' : ¬ (a == b) = true := by simpa using h
    simp [List.erase_cons, h']

theorem fod_advance_inv (e : Env) (he : e.Ok) (w : Worker) (h : Inv w) :
    Inv (advance e w) := by
  unfold advance
  obtain ⟨pc, flag, ifd, efd, n, k, fds, r, svc⟩ := w
  cases pc
  case openDev =>
    simp only [Inv] at h
    by_cases hc : e.fd < 0 <;> simp [Inv, hc, h]
  case epollCreate =>
    simp only [Inv] at h
    by_cases hc : e.fd = -1 <;> by_cases hp : 0 ≤ e.fd <;> simp [Inv, hc, hp, h]
  case epollCtl =>
    simp only [Inv] at h
    by_cases hc : e.ctl = -1 <;> simp [Inv, hc, h]
  case loopHead =>
    simp only [Inv] at h
    cases flag <;> simp [Inv, h]
  case epollWait =>
    simp only [Inv] at h
    unfold Env.Ok at he
    by_cases hc : e.nevents = -1 <;> by_cases hi : e.errno = EINTR <;> simp [Inv, hc, hi, h, he]
  case forEach i =>
    simp only [Inv] at h
    by_cases hc : i < n
    · simp only [hc, if_true, Inv]
      exact ⟨h.1, by omega, h.2.2⟩
    · simp [Inv, hc, h.1]
  case cleanup =>
    simp only [Inv] at h
    subst h
    by_cases hp : 0 ≤ efd
    · simp [Inv, hp, erase_pair]
    · simp [Inv, hp]
  case done =>
    exact h

theorem fod_advance_flag (e : Env) (w : Worker) :
    (advance e w).destroyThread = w.destroyThread := by
  unfold advance
  obtain ⟨pc, flag, ifd, efd, n, k, fds, r, svc⟩ := w
  cases pc <;> simp only [] <;> repeat' split
  all_goals rfl

theorem fod_advance_measures (e : Env) (he : e.Ok) (w : Worker)
    (hf : w.destroyThread = true) (h : Inv w) :
    stepsLeft (advance e w) ≤ stepsLeft w - 1
      ∧ w.reads ≤ (advance e w).reads
      ∧ (advance e w).reads + readsLeft (advance e w) ≤ w.reads + readsLeft w := by
  unfold advance
  obtain ⟨pc, flag, ifd, efd, n, k, fds, r, svc⟩ := w
  simp only at hf
  subst hf
  cases pc
  case openDev =>
    by_cases hc : e.fd < 0 <;> simp [stepsLeft, readsLeft, hc]
  case epollCreate =>
    by_cases hc : e.fd = -1 <;> simp [stepsLeft, readsLeft, hc]
  case epollCtl =>
    by_cases hc : e.ctl = -1 <;> simp [stepsLeft, readsLeft, hc]
  case loopHead =>
    simp [stepsLeft, readsLeft]
  case epollWait =>
    unfold Env.Ok EPOLLEVENTS at he
    by_cases hc : e.nevents = -1 <;> by_cases hi : e.errno = EINTR <;>
      simp [stepsLeft, readsLeft, hc, hi]
    all_goals omega
  case forEach i =>
    simp only [Inv] at h
    by_cases hc : i < n
    · simp only [hc, if_true, stepsLeft, readsLeft]
      omega
    · simp [stepsLeft, readsLeft, hc]
  case cleanup =>
    by_cases hp : 0 ≤ efd <;> simp [stepsLeft, readsLeft, hp]
  case done =>
    simp [stepsLeft, readsLeft]

theorem fod_step_signal (e : Env) (w : Worker) (sig : Int) (hs : e.signal = some sig) :
    step e w = { w with destroyThread := sighandler sig w.destroyThread } := by
  simp [step, hs]

theorem fod_step_own (e : Env) (w : Worker) (hs : e.signal = none) :
    step e w = advance e w := by
  simp [step, hs]

theorem fod_step_inv (e : Env) (he : e.Ok) (w : Worker) (h : Inv w) : Inv (step e w) := by
  cases hs : e.signal with
  | none => rw [fod_step_own e w hs]; exact fod_advance_inv e he w h
  | some sig => rw [fod_step_signal e w sig hs]; exact h

theorem fod_run_cons (e : Env) (es : List Env) (w : Worker) :
    run (e :: es) w = run es (step e w) := rfl

theorem fod_run_inv (es : List Env) (hes : ∀ e ∈ es, e.Ok) (w : Worker) (h : Inv w) :
    Inv (run es w) := by
  induction es generalizing w with
  | nil => exact h
  | cons e es ih =>
    rw [fod_run_cons]
    exact ih (fun x hx => hes x (by simp [hx])) _ (fod_step_inv e (hes e (by simp)) w h)

/-- Once the flag is set: the flag stays set, the count of reads grows by no
more than `readsLeft`, and `stepsLeft` goes down by one at every step of the
thread. -/
theorem fod_run_after_flag (es : List Env) (hes : ∀ e ∈ es, e.Ok) (w : Worker)
    (hf : w.destroyThread = true) (h : Inv w) :
    (run es w).destroyThread = true
      ∧ w.reads ≤ (run es w).reads
      ∧ (run es w).reads ≤ w.reads + readsLeft w
      ∧ stepsLeft (run es w) ≤ stepsLeft w - ownSteps es := by
  induction es generalizing w with
  | nil => exact ⟨hf, le_refl _, by simp [run], by simp [run, ownSteps]⟩
  | cons e es ih =>
    have he := hes e (by simp)
    have hes' : ∀ x ∈ es, x.Ok := fun x hx => hes x (by simp [hx])
    rw [fod_run_cons]
    cases hs : e.signal with
    | some sig =>
      have hown : ownSteps (e :: es) = ownSteps es := by simp [ownSteps, List.filter_cons, hs]
      rw [fod_step_signal e w sig hs, hown]
      exact ih hes' _ (by simp [sighandler, hf]) h
    | none =>
      have hown : ownSteps (e :: es) = ownSteps es + 1 := by
        simp [ownSteps, List.filter_cons, hs]
      have hm := fod_advance_measures e he w hf h
      have ih' := ih hes' (advance e w) (by rw [fod_advance_flag]; exact hf)
        (fod_advance_inv e he w h)
      rw [fod_step_own e w hs, hown]
      refine ⟨ih'.1, le_trans hm.2.1 ih'.2.1, by omega, by omega⟩

theorem fod_stepsLeft_le (w : Worker) (h : Inv w) : stepsLeft w ≤ 24 := by
  obtain ⟨pc, flag, ifd, efd, n, k, fds, r, svc⟩ := w
  cases pc <;> simp only [stepsLeft] <;> try omega
  simp only [Inv, EPOLLEVENTS] at h
  omega

theorem fod_readsLeft_le (w : Worker) (h : Inv w) : readsLeft w ≤ 20 := by
  obtain ⟨pc, flag, ifd, efd, n, k, fds, r, svc⟩ := w
  cases pc <;> simp only [readsLeft] <;> try omega
  simp only [Inv, EPOLLEVENTS] at h
  omega

theorem fod_done_of_stepsLeft (w : Worker) (h : Inv w) (h0 : stepsLeft w = 0) :
    w.pc = .done ∧ w.openFds = [] := by
  obtain ⟨pc, flag, ifd, efd, n, k, fds, r, svc⟩ := w
  cases pc <;> simp [stepsLeft] at h0
  exact ⟨rfl, h⟩

theorem fod_init_inv (a b : Int) (k : input_event) (svc : FingerprintInscreen) :
    Inv (Worker.init a b k svc) := rfl

theorem fod_loopHead_exit (e : Env) (w : Worker) (hf : w.destroyThread = true)
    (hpc : w.pc = .loopHead) : (step e w).pc ≠ .epollWait := by
  obtain ⟨pc, flag, ifd, efd, n, k, fds, r, svc⟩ := w
  simp only at hf hpc
  subst hf hpc
  cases hs : e.signal with
  | none => simp [step, hs, advance]
  | some sig => simp [step, hs]

/-- The fingerprint poller after its flag is set. -/
theorem fod_after_flag (es0 es1 : List Env) (h0 : ∀ e ∈ es0, e.Ok) (h1 : ∀ e ∈ es1, e.Ok)
    (w0 : Worker) (hw0 : Inv w0) (hf : (run es0 w0).destroyThread = true) :
    (∀ e, (run es1 (run es0 w0)).pc = .loopHead →
        (step e (run es1 (run es0 w0))).pc ≠ .epollWait)
    ∧ ((run es0 w0).pc ≠ .epollWait → (∀ i, (run es0 w0).pc ≠ .forEach i) →
        (run es1 (run es0 w0)).reads = (run es0 w0).reads)
    ∧ (run es1 (run es0 w0)).reads ≤ (run es0 w0).reads + 20
    ∧ (24 ≤ ownSteps es1 →
        (run es1 (run es0 w0)).pc = .done ∧ (run es1 (run es0 w0)).openFds = []) := by
  have hinv := fod_run_inv es0 h0 w0 hw0
  have hinv1 := fod_run_inv es1 h1 _ hinv
  obtain ⟨hflag, hmono, hreads, hsteps⟩ := fod_run_after_flag es1 h1 _ hf hinv
  refine ⟨fun e hpc => fod_loopHead_exit e _ hflag hpc, ?_, ?_, ?_⟩
  · intro hw hfe
    have hz : readsLeft (run es0 w0) = 0 := by
      generalize run es0 w0 = w at hw hfe
      obtain ⟨pc, flag, ifd, efd, n, k, fds, r, svc⟩ := w
      cases pc <;> simp [readsLeft] at hw hfe ⊢
    omega
  · have := fod_readsLeft_le _ hinv
    omega
  · intro hlen
    have := fod_stepsLeft_le _ hinv
    exact fod_done_of_stepsLeft _ hinv1 (by omega)

/-- C6. The poller is in its `for` loop with a ready descriptor left, and `read`
delivers an event record. If the record has type `EV_KEY` and code `KEY_FOD`,
the registered listener gets exactly one `onFingerDown` when the value is not
zero and exactly one `onFingerUp` when it is zero, and nothing is called when no
listener is registered; a record of any other type or code causes no call. -/
theorem key_event_delivery (e : Env) (w : Worker) (i : Int)
    (hpc : w.pc = .forEach i) (hi : i < w.nevents) (hret : 0 < e.ret) :
    (e.record.type = EV_KEY ∧ e.record.code = KEY_FOD →
        (∀ l, w.service.mCallback = some l →
          (e.record.value ≠ 0 →
            (advance e w).service.delivered = w.service.delivered ++ [(l, .onFingerDown)])
          ∧ (e.record.value = 0 →
            (advance e w).service.delivered = w.service.delivered ++ [(l, .onFingerUp)]))
        ∧ (w.service.mCallback = none →
            (advance e w).service.delivered = w.service.delivered))
    ∧ (¬ (e.record.type = EV_KEY ∧ e.record.code = KEY_FOD) →
        (advance e w).service.delivered = w.service.delivered)
    ∧ (advance e w).service.mCallback = w.service.mCallback
    ∧ (advance e w).reads = w.reads + 1 := by
  have hstep : advance e w
      = { w with
          key_event := e.record, reads := w.reads + 1,
          service := dispatch e.ret e.record w.service, pc := .forEach (i + 1) } := by
    obtain ⟨pc, flag, ifd, efd, n, k, fds, r, svc⟩ := w
    simp only at hpc hi
    subst hpc
    simp [advance, hi, readEvent, hret]
  have hne : e.ret ≠ 0 := by omega
  rw [hstep]
  refine ⟨?_, ?_, ?_, rfl⟩
  · rintro ⟨ht, hc⟩
    refine ⟨?_, ?_⟩
    · intro l hl
      constructor
      · intro hv
        simp [dispatch, notifyKeyEvent, hne, ht, hc, hl, hv]
      · intro hv
        simp [dispatch, notifyKeyEvent, hne, ht, hc, hl, hv]
    · intro hl
      simp [dispatch, notifyKeyEvent, hne, ht, hc, hl]
  · intro hn
    simp [dispatch, hn]
  · simp only [dispatch, notifyKeyEvent]
    split
    · split
      · rfl
      · split <;> simp_all
    · rfl

theorem le_rpow455 {a x : ℝ} (ha : 0 ≤ a) (hx : 0 ≤ x) (h : a ^ 200 ≤ x ^ 91) :
    a ≤ x ^ (0.455 : ℝ) := by
  have h1 : a = (a ^ 200) ^ ((200 : ℕ) : ℝ)⁻¹ := (Real.pow_rpow_inv_natCast ha (by norm_num)).symm
  have h2 : x ^ (0.455 : ℝ) = (x ^ 91) ^ ((200 : ℕ) : ℝ)⁻¹ := by
    rw [← Real.rpow_natCast x 91, ← Real.rpow_mul hx]
    norm_num
  rw [h1, h2]
  exact Real.rpow_le_rpow (pow_nonneg ha _) h (by norm_num)

theorem rpow455_le {a x : ℝ} (ha : 0 ≤ a) (hx : 0 ≤ x) (h : x ^ 91 ≤ a ^ 200) :
    x ^ (0.455 : ℝ) ≤ a := by
  have h1 : a = (a ^ 200) ^ ((200 : ℕ) : ℝ)⁻¹ := (Real.pow_rpow_inv_natCast ha (by norm_num)).symm
  have h2 : x ^ (0.455 : ℝ) = (x ^ 91) ^ ((200 : ℕ) : ℝ)⁻¹ := by
    rw [← Real.rpow_natCast x 91, ← Real.rpow_mul hx]
    norm_num
  rw [h1, h2]
  exact Real.rpow_le_rpow (pow_nonneg hx _) h (by norm_num)

/-- The real power at the two ends of the interval the quotient lies in. -/
theorem rpow455_bounds {q : ℝ} (hlo : (0.50195 : ℝ) ≤ q) (hhi : q ≤ 0.50197) :
    (0.7307 : ℝ) ≤ q ^ (0.455 : ℝ) ∧ q ^ (0.455 : ℝ) ≤ 0.7309 := by
  have hq : (0 : ℝ) ≤ q := le_trans (by norm_num) hlo
  constructor
  · calc (0.7307 : ℝ) ≤ (0.50195 : ℝ) ^ (0.455 : ℝ) :=
          le_rpow455 (by norm_num) (by norm_num) (by norm_num)
      _ ≤ q ^ (0.455 : ℝ) := Real.rpow_le_rpow (by norm_num) hlo (by norm_num)
  · calc q ^ (0.455 : ℝ) ≤ (0.50197 : ℝ) ^ (0.455 : ℝ) :=
          Real.rpow_le_rpow hq hhi (by norm_num)
      _ ≤ 0.7309 := rpow455_le (by norm_num) (by norm_num) (by norm_num)

/-- A rounded value lies where the exact value lies, up to `2 ^ -20` of it. -/
theorem near_bounds {f : ℝ → ℝ} (hf : ∀ x : ℝ, 1 / 8 ≤ x → x ≤ 256 → |f x - x| ≤ x / 2 ^ 20)
    (x lo hi : ℝ) (h8 : 1 / 8 ≤ lo) (h256 : hi ≤ 256) (hlo : lo ≤ x) (hhi : x ≤ hi) :
    lo - lo / 2 ^ 20 ≤ f x ∧ f x ≤ hi + hi / 2 ^ 20 := by
  have h := abs_le.1 (hf x (le_trans h8 hlo) (le_trans hhi h256))
  constructor
  · have : lo - lo / 2 ^ 20 ≤ x - x / 2 ^ 20 := by
      have : (0:ℝ) ≤ (x - lo) * (1 - 1 / 2 ^ 20) :=
        mul_nonneg (by linarith) (by norm_num)
      linarith
    linarith [h.1]
  · have : x + x / 2 ^ 20 ≤ hi + hi / 2 ^ 20 := by
      have : (0:ℝ) ≤ (hi - x) * (1 + 1 / 2 ^ 20) :=
        mul_nonneg (by linarith) (by norm_num)
      linarith
    linarith [h.2]

theorem truncate_of_mem {x : ℝ} {n : ℤ} (h0 : 0 ≤ x) (hlo : (n : ℝ) ≤ x) (hhi : x < n + 1) :
    truncate x = n := by
  unfold truncate
  rw [if_pos h0]
  exact Int.floor_eq_iff.2 ⟨hlo, hhi⟩

theorem getDimAmount_zero (F : FloatOps) (hF : F.Accurate) : getDimAmount F (some 0) = 255 := by
  have f0 : F.toFloat 0 = 0 := by simpa using hF.float_int 0 (by norm_num)
  have f1 : F.toFloat 1 = 1 := by simpa using hF.float_int 1 (by norm_num)
  have d1 : F.toDouble 1 = 1 := by simpa using hF.double_int 1 (by norm_num)
  have f255 : F.toFloat 255 = 255 := by simpa using hF.float_int 255 (by norm_num)
  simp only [getDimAmount, get, Int.cast_zero, f0, zero_div, hF.pow_zero, sub_zero, d1, f1,
    mul_one, f255]
  exact truncate_of_mem (by norm_num) (by norm_num) (by norm_num)

theorem getDimAmount_full (F : FloatOps) (hF : F.Accurate) : getDimAmount F (some 255) = 0 := by
  have f0 : F.toFloat 0 = 0 := by simpa using hF.float_int 0 (by norm_num)
  have f1 : F.toFloat 1 = 1 := by simpa using hF.float_int 1 (by norm_num)
  have d0 : F.toDouble 0 = 0 := by simpa using hF.double_int 0 (by norm_num)
  have f255 : F.toFloat 255 = 255 := by simpa using hF.float_int 255 (by norm_num)
  have hb : ((255 : ℤ) : ℝ) = 255 := by norm_num
  simp only [getDimAmount, get, hb, f255, div_self (by norm_num : (255 : ℝ) ≠ 0), f1,
    hF.pow_one, sub_self, d0, f0, mul_zero]
  exact truncate_of_mem (le_refl _) (by norm_num) (by norm_num)

theorem getDimAmount_half (F : FloatOps) (hF : F.Accurate) : getDimAmount F (some 128) = 68 := by
  have f128 : F.toFloat 128 = 128 := by simpa using hF.float_int 128 (by norm_num)
  have hb : ((128 : ℤ) : ℝ) = 128 := by norm_num
  -- the quotient
  obtain ⟨q1, q2⟩ := near_bounds hF.float_near ((128 : ℝ) / 255) (128 / 255) (128 / 255)
    (by norm_num) (by norm_num) (le_refl _) (le_refl _)
  have hq1 : (0.50195 : ℝ) ≤ F.toFloat (128 / 255) := le_trans (by norm_num) q1
  have hq2 : F.toFloat (128 / 255) ≤ 0.50197 := le_trans q2 (by norm_num)
  -- the power
  obtain ⟨r1, r2⟩ := rpow455_bounds hq1 hq2
  have hp := abs_le.1 (hF.pow_near _ (le_trans (by norm_num) hq1) (le_trans hq2 (by norm_num)))
  have hp1 : (0.7306 : ℝ) ≤ F.pow455 (F.toFloat (128 / 255)) := by
    have := hp.1
    norm_num at this ⊢
    linarith
  have hp2 : F.pow455 (F.toFloat (128 / 255)) ≤ 0.7310 := by
    have := hp.2
    norm_num at this ⊢
    linarith
  -- the difference, as a double and then as a float
  obtain ⟨d1, d2⟩ := near_bounds hF.double_near
    (1 - F.pow455 (F.toFloat (128 / 255))) 0.2690 0.2694
    (by norm_num) (by norm_num) (by linarith) (by linarith)
  obtain ⟨a1, a2⟩ := near_bounds hF.float_near
    (F.toDouble (1 - F.pow455 (F.toFloat (128 / 255)))) 0.2689 0.2695
    (by norm_num) (by norm_num) (le_trans (by norm_num) d1) (le_trans d2 (by norm_num))
  -- the product
  have ha1 : (0.2688 : ℝ) ≤ F.toFloat (F.toDouble (1 - F.pow455 (F.toFloat (128 / 255)))) :=
    le_trans (by norm_num) a1
  have ha2 : F.toFloat (F.toDouble (1 - F.pow455 (F.toFloat (128 / 255)))) ≤ 0.2696 :=
    le_trans a2 (by norm_num)
  obtain ⟨m1, m2⟩ := near_bounds hF.float_near
    (255 * F.toFloat (F.toDouble (1 - F.pow455 (F.toFloat (128 / 255))))) 68.5 68.8
    (by norm_num) (by norm_num) (by linarith) (by linarith)
  simp only [getDimAmount, get, hb, f128]
  exact truncate_of_mem (le_trans (by norm_num) m1) (le_trans (by norm_num) m1)
    (lt_of_le_of_lt m2 (by norm_num))

theorem exactOps_accurate : exactOps.Accurate where
  float_int := fun _ _ => rfl
  double_int := fun _ _ => rfl
  float_near := fun x hx _ => by
    simp only [exactOps, sub_self, abs_zero]
    exact div_nonneg (by linarith) (by norm_num)
  double_near := fun x hx _ => by
    simp only [exactOps, sub_self, abs_zero]
    exact div_nonneg (by linarith) (by norm_num)
  pow_zero := Real.zero_rpow (by norm_num)
  pow_one := Real.one_rpow _
  pow_near := fun x hx _ => by
    simp only [exactOps, sub_self, abs_zero]
    exact div_nonneg (Real.rpow_nonneg (by linarith) _) (by norm_num)

/-- C6 on a concrete record: with listener 7 registered, a record of type
`EV_KEY`, code `KEY_FOD` and value 1 yields the single call `onFingerDown`. -/
theorem key_event_delivery_witness :
    (readyWorker.pc = .forEach 0 ∧ (0 : Int) < readyWorker.nevents ∧ (0 : Int) < fingerDown.ret)
    ∧ (advance fingerDown readyWorker).service.delivered = [(7, .onFingerDown)] :=
  ⟨⟨rfl, by decide, by decide⟩,
    (((key_event_delivery fingerDown readyWorker 0 rfl (by decide) (by decide)).1
      ⟨rfl, rfl⟩).1 7 rfl).1 (by decide)⟩

/-- C7, as stated, fails at brightness 128: in exact arithmetic the result is
68, and no arithmetic within the assumed accuracy returns 109. -/
theorem getDimAmount_half_is_not_109 :
    getDimAmount exactOps (some 128) = 68
    ∧ ¬ ∃ F : FloatOps, F.Accurate ∧ getDimAmount F (some 128) = 109 := by
  refine ⟨getDimAmount_half exactOps exactOps_accurate, ?_⟩
  rintro ⟨F, hF, h⟩
  rw [getDimAmount_half F hF] at h
  exact absurd h (by decide)

/-- C7, amended. `getDimAmount` returns 255 when the brightness read is 0, also
when the brightness file cannot be read (default 0); it returns 0 when the
brightness read is 255; and it returns 68 when the brightness read is 128, the
value 255 * (1 - (128/255)^0.455) = 68.64... with its fraction dropped. -/
theorem getDimAmount_values (F : FloatOps) (hF : F.Accurate) :
    getDimAmount F none = 255
    ∧ getDimAmount F (some 0) = 255
    ∧ getDimAmount F (some 255) = 0
    ∧ getDimAmount F (some 128) = 68 :=
  ⟨getDimAmount_zero F hF, getDimAmount_zero F hF, getDimAmount_full F hF,
    getDimAmount_half F hF⟩

theorem getDimAmount_values_witness :
    exactOps.Accurate
    ∧ getDimAmount exactOps none = 255
    ∧ getDimAmount exactOps (some 0) = 255
    ∧ getDimAmount exactOps (some 255) = 0
    ∧ getDimAmount exactOps (some 128) = 68 :=
  ⟨exactOps_accurate, getDimAmount_values exactOps exactOps_accurate⟩

end Fod

/-- C9, as stated, fails in both loops. The signal is delivered after the test
of the `while` has let the thread in. The flag is now set and nothing has been
read yet; still the fingerprint poller goes on to `epoll_wait` and reads the
device, and the gesture poller goes on to read the pipe. -/
theorem read_after_flag_is_set :
    ((Fod.run Fod.flagRaised (Fod.Worker.init 0 0 ⟨0, 0, 0⟩ ⟨some 7, []⟩)).destroyThread = true
      ∧ (Fod.run Fod.flagRaised (Fod.Worker.init 0 0 ⟨0, 0, 0⟩ ⟨some 7, []⟩)).reads = 0
      ∧ (Fod.run [Fod.fingerDown, Fod.fingerDown]
          (Fod.run Fod.flagRaised (Fod.Worker.init 0 0 ⟨0, 0, 0⟩ ⟨some 7, []⟩))).reads = 1)
    ∧ ((Touch.run Touch.flagRaised
          (Touch.Worker.init 0 (List.replicate 10 0) Touch.zeroState)).destroyThread = true
      ∧ (Touch.run Touch.flagRaised
          (Touch.Worker.init 0 (List.replicate 10 0) Touch.zeroState)).reads = 0
      ∧ (Touch.step Touch.lineOne (Touch.run Touch.flagRaised
          (Touch.Worker.init 0 (List.replicate 10 0) Touch.zeroState))).reads = 1) := by
  decide

/-- C9, amended. In both worker loops a step is either the delivery of a signal
or a step of the thread, and the flag may be set before any step. Once it is
set, the test of the `while` never lets the thread into another iteration. So if
the thread is not in the middle of an iteration (not at `epoll_wait` or in the
`for` loop; not at the `read` of the pipe) it never reads again; an iteration in
progress is finished first, which costs at most `EPOLLEVENTS` (20) more reads of
the device and at most one more read of the pipe; and after at most 24 more
steps of its own (4 for the gesture poller) `work` has returned with every
descriptor it opened closed. -/
theorem worker_loops_stop_after_flag
    (es0 es1 : List Fod.Env) (a b : Int) (k : Fod.input_event) (svc : Fod.FingerprintInscreen)
    (ts0 ts1 : List Touch.Env) (fd : Int) (buf : List Nat) (tsvc : Touch.TouchscreenGesture)
    (h0 : ∀ e ∈ es0, e.Ok) (h1 : ∀ e ∈ es1, e.Ok)
    (hf : (Fod.run es0 (Fod.Worker.init a b k svc)).destroyThread = true)
    (ht : (Touch.run ts0 (Touch.Worker.init fd buf tsvc)).destroyThread = true) :
    ((∀ e, (Fod.run es1 (Fod.run es0 (Fod.Worker.init a b k svc))).pc = .loopHead →
        (Fod.step e (Fod.run es1 (Fod.run es0 (Fod.Worker.init a b k svc)))).pc ≠ .epollWait)
      ∧ ((Fod.run es0 (Fod.Worker.init a b k svc)).pc ≠ .epollWait →
        (∀ i, (Fod.run es0 (Fod.Worker.init a b k svc)).pc ≠ .forEach i) →
        (Fod.run es1 (Fod.run es0 (Fod.Worker.init a b k svc))).reads
          = (Fod.run es0 (Fod.Worker.init a b k svc)).reads)
      ∧ (Fod.run es1 (Fod.run es0 (Fod.Worker.init a b k svc))).reads
          ≤ (Fod.run es0 (Fod.Worker.init a b k svc)).reads + 20
      ∧ (24 ≤ Fod.ownSteps es1 →
          (Fod.run es1 (Fod.run es0 (Fod.Worker.init a b k svc))).pc = .done
          ∧ (Fod.run es1 (Fod.run es0 (Fod.Worker.init a b k svc))).openFds = []))
    ∧ ((∀ e, (Touch.run ts1 (Touch.run ts0 (Touch.Worker.init fd buf tsvc))).pc = .loopHead →
        (Touch.step e (Touch.run ts1 (Touch.run ts0 (Touch.Worker.init fd buf tsvc)))).pc
          ≠ .readFifo)
      ∧ ((Touch.run ts0 (Touch.Worker.init fd buf tsvc)).pc ≠ .readFifo →
        (Touch.run ts1 (Touch.run ts0 (Touch.Worker.init fd buf tsvc))).reads
          = (Touch.run ts0 (Touch.Worker.init fd buf tsvc)).reads)
      ∧ (Touch.run ts1 (Touch.run ts0 (Touch.Worker.init fd buf tsvc))).reads
          ≤ (Touch.run ts0 (Touch.Worker.init fd buf tsvc)).reads + 1
      ∧ (4 ≤ Touch.ownSteps ts1 →
          (Touch.run ts1 (Touch.run ts0 (Touch.Worker.init fd buf tsvc))).pc = .done
          ∧ (Touch.run ts1 (Touch.run ts0 (Touch.Worker.init fd buf tsvc))).openFds = [])) :=
  ⟨Fod.fod_after_flag es0 es1 h0 h1 _ (Fod.fod_init_inv a b k svc) hf,
   Touch.touch_after_flag ts0 ts1 _ rfl ht⟩

/-- C9 on concrete runs: the flag is set while each thread is inside its loop,
and 24 (4) steps later each `work` has returned with nothing left open. -/
theorem worker_loops_stop_after_flag_witness :
    ((∀ e ∈ Fod.flagRaised, e.Ok) ∧ (∀ e ∈ Fod.manyMore, e.Ok)
      ∧ (Fod.run Fod.flagRaised (Fod.Worker.init 0 0 ⟨0, 0, 0⟩ ⟨some 7, []⟩)).destroyThread = true
      ∧ (Touch.run Touch.flagRaised
          (Touch.Worker.init 0 (List.replicate 10 0) Touch.zeroState)).destroyThread = true)
    ∧ ((Fod.run Fod.manyMore
          (Fod.run Fod.flagRaised (Fod.Worker.init 0 0 ⟨0, 0, 0⟩ ⟨some 7, []⟩))).pc = .done
      ∧ (Fod.run Fod.manyMore
          (Fod.run Fod.flagRaised (Fod.Worker.init 0 0 ⟨0, 0, 0⟩ ⟨some 7, []⟩))).openFds = [])
    ∧ ((Touch.run Touch.fourMore (Touch.run Touch.flagRaised
          (Touch.Worker.init 0 (List.replicate 10 0) Touch.zeroState))).pc = .done
      ∧ (Touch.run Touch.fourMore (Touch.run Touch.flagRaised
          (Touch.Worker.init 0 (List.replicate 10 0) Touch.zeroState))).openFds = []) :=
  ⟨⟨by decide, by decide, by decide, by decide⟩,
    (worker_loops_stop_after_flag Fod.flagRaised Fod.manyMore 0 0 ⟨0, 0, 0⟩ ⟨some 7, []⟩
      Touch.flagRaised Touch.fourMore 0 (List.replicate 10 0) Touch.zeroState
      (by decide) (by decide) (by decide) (by decide)).1.2.2.2 (by decide),
    (worker_loops_stop_after_flag Fod.flagRaised Fod.manyMore 0 0 ⟨0, 0, 0⟩ ⟨some 7, []⟩
      Touch.flagRaised Touch.fourMore 0 (List.replicate 10 0) Touch.zeroState
      (by decide) (by decide) (by decide) (by decide)).2.2.2.2 (by decide)⟩
